import Mathlib

/-!
Verification of the IP-locator core (`locator.py`, multi-provider variant).

This file gives a shallow embedding of the multi-provider geolocation core of
`locator.py` (class `IPLocationTracker`, second variant): the address
validator, the Google-Maps-link helper, the three provider-response
normalizers, and the provider-fallback resolution loop, together with
theorems settling the specification claims about them.

Python strings are modelled as `List Char`; Python dictionaries holding the
raw provider responses as association lists of `(key, value)` pairs; Python
`float` values as exact decimal numbers (`DecNum`), which agrees with CPython
on every value arising here (short decimal literals, for which CPython's
shortest-roundtrip `repr` prints exactly the decimal); a raised Python
exception as an `Except` error value.  Side effects (HTTP fetch, reverse DNS,
`time.sleep`) are modelled by oracles passed in as parameters plus an event
trace of collaborator calls, in the order the code performs them.
-/

/-- Decimal digit value of a character, `none` for non-digits.  Models the
`octet_str.isascii() and octet_str.isdigit()` character test of CPython's
IPv4 parser together with `int()` digit conversion. -/
def digitVal : Char → Option Nat
  | '0' => .some 0
  | '1' => .some 1
  | '2' => .some 2
  | '3' => .some 3
  | '4' => .some 4
  | '5' => .some 5
  | '6' => .some 6
  | '7' => .some 7
  | '8' => .some 8
  | '9' => .some 9
  | _   => .none

/-- Hexadecimal digit value of a character, `none` outside
`0123456789abcdefABCDEF` (CPython's `_HEX_DIGITS`). -/
def hexDigitVal : Char → Option Nat
  | 'a' => some 10
  | 'b' => some 11
  | 'c' => some 12
  | 'd' => some 13
  | 'e' => some 14
  | 'f' => some 15
  | 'A' => some 10
  | 'B' => some 11
  | 'C' => some 12
  | 'D' => some 13
  | 'E' => some 14
  | 'F' => some 15
  | c   => digitVal c

/-- `isDigitCh c` holds when `c` is a decimal digit. -/
def isDigitCh (c : Char) : Bool := (digitVal c).isSome

/-- `isHexCh c` holds when `c` is a hexadecimal digit. -/
def isHexCh (c : Char) : Bool := (hexDigitVal c).isSome

/-- Numeric value of a decimal digit string (junk on non-digits; callers
check `isDigitCh` first).  Models CPython's `int(s)` on digit strings. -/
def digitsVal (s : List Char) : Nat :=
  s.foldl (fun acc c => 10 * acc + ((digitVal c).getD 0)) 0

/-- Numeric value of a hexadecimal digit string.  Models `int(s, 16)`. -/
def hexVal (s : List Char) : Nat :=
  s.foldl (fun acc c => 16 * acc + ((hexDigitVal c).getD 0)) 0

/-- The character of a decimal digit `n < 10`. -/
def digitCh : Nat → Char
  | 0 => '0'
  | 1 => '1'
  | 2 => '2'
  | 3 => '3'
  | 4 => '4'
  | 5 => '5'
  | 6 => '6'
  | 7 => '7'
  | 8 => '8'
  | _ => '9'

/-- Fuel-driven digit rendering (structural recursion so that concrete
instances reduce definitionally); `natStr` supplies enough fuel. -/
def natStrAux : Nat → Nat → List Char
  | 0, _ => []
  | fuel + 1, n =>
    if n < 10 then [digitCh n]
    else natStrAux fuel (n / 10) ++ [digitCh (n % 10)]

/-- Canonical decimal rendering of a natural number (no leading zeros);
the rendering CPython's `str(n)` produces. -/
def natStr (n : Nat) : List Char := natStrAux (n + 1) n

/-- Python's `s.split(sep)` for a one-character separator: the list of
(possibly empty) chunks between occurrences of `sep`.  Always non-empty;
`splitCh sep [] = [[]]` just as `"".split(sep) == ['']`. -/
def splitCh (sep : Char) : List Char → List (List Char)
  | [] => [[]]
  | c :: cs =>
    if c = sep then [] :: splitCh sep cs
    else
      match splitCh sep cs with
      | [] => [[c]]
      | p :: ps => (c :: p) :: ps

/-- Join chunks with a one-character separator: inverse of `splitCh`. -/
def joinCh (sep : Char) : List (List Char) → List Char
  | [] => []
  | [p] => p
  | p :: ps => p ++ sep :: joinCh sep ps

/-- Model of a CPython `float` as an exact scaled decimal `m / 10 ^ e`.
This agrees with IEEE doubles on every value the program manipulates (short
decimal literals parsed by `float()` or produced by JSON): for those,
CPython's shortest-roundtrip `repr` prints exactly the short decimal this
model renders.  Negative zero is identified with zero (CPython also has
`-0.0 == 0.0`). -/
structure DecNum where
  m : Int
  e : Nat
deriving DecidableEq, Repr, Inhabited

/-- Strip trailing decimal zeros: the canonical form `repr` prints. -/
def decNormAux : Int → Nat → DecNum
  | m, 0 => ⟨m, 0⟩
  | m, e + 1 => if m % 10 = 0 then decNormAux (m / 10) e else ⟨m, e + 1⟩

/-- Canonical form of a `DecNum` (no trailing zero in the fraction). -/
def decNorm (d : DecNum) : DecNum := decNormAux d.m d.e

/-- Digits of `n` left-padded with `'0'` to width `w`. -/
def natStrPad (w n : Nat) : List Char :=
  List.replicate (w - (natStr n).length) '0' ++ natStr n

/-- Rendering of a `DecNum` as CPython's `repr`/`str` of the equal float
value renders it, for values in the plain-decimal regime (CPython switches
to exponent notation only below 1e-4 or at/above 1e16, which never arises
here): optional sign, integer part, `'.'`, fraction (`".0"` when the value
is integral). -/
def decRepr (d : DecNum) : List Char :=
  let n := decNorm d
  let a := n.m.natAbs
  let sign : List Char := if n.m < 0 then ['-'] else []
  if n.e = 0 then sign ++ natStr a ++ ['.', '0']
  else sign ++ natStr (a / 10 ^ n.e) ++ '.' :: natStrPad n.e (a % 10 ^ n.e)

/-- Unsigned decimal-literal body accepted by CPython's `float()`: digit
runs around at most one `'.'`, at least one digit in total.  Returns the
digit value and the number of fractional digits. -/
def pyFloatBody? (t : List Char) : Option (Nat × Nat) :=
  match splitCh '.' t with
  | [ip] =>
    if ip ≠ [] ∧ ip.all isDigitCh then some (digitsVal ip, 0) else none
  | [ip, fp] =>
    if (ip ≠ [] ∨ fp ≠ []) ∧ ip.all isDigitCh ∧ fp.all isDigitCh then
      some (digitsVal (ip ++ fp), fp.length)
    else none
  | _ => none

/-- Model of CPython's `float(s)` restricted to plain decimal literals
(optional sign, digits, one optional `'.'`).  The exponent, `inf`/`nan`,
underscore, and surrounding-whitespace forms `float()` also accepts never
arise from the provider payloads modelled here. -/
def pyFloat? (s : List Char) : Option DecNum :=
  match s with
  | '-' :: r => (pyFloatBody? r).map (fun p => ⟨-(p.1 : Int), p.2⟩)
  | '+' :: r => (pyFloatBody? r).map (fun p => ⟨(p.1 : Int), p.2⟩)
  | r => (pyFloatBody? r).map (fun p => ⟨(p.1 : Int), p.2⟩)

/-- A loosely-typed JSON/Python value as stored in a provider response
dictionary: a string or a number. -/
inductive PyVal where
  | str : List Char → PyVal
  | num : DecNum → PyVal
deriving DecidableEq, Repr, Inhabited

/-- Python's `v == 0.0`: true exactly for a number of value zero (a string
never equals a float in Python). -/
def pyIsZero : PyVal → Bool
  | .str _ => false
  | .num d => d.m = 0

/-- Python f-string interpolation of a value: a string verbatim, a float
via its `repr`. -/
def pyToStr : PyVal → List Char
  | .str s => s
  | .num d => decRepr d

/-- A raw provider response: a JSON object modelled as an association list
(first binding wins, as Python dict keys are unique). -/
abbrev RawResp : Type := List (List Char × PyVal)

deriving instance DecidableEq for Except

/-- Lookup of a key in a raw response. -/
def pyGet? : RawResp → List Char → Option PyVal
  | [], _ => none
  | (k, v) :: r, key => if k = key then some v else pyGet? r key

/-- Python's `d.get(key, default)`. -/
def pyGet (raw : RawResp) (key : List Char) (default : PyVal) : PyVal :=
  (pyGet? raw key).getD default

/-- `IPLocationTracker.create_google_maps_link` (multi-provider variant,
`locator.py` lines 182-189): the sentinel string when both coordinates
equal `0.0`, otherwise an f-string interpolating the two values verbatim
into a fixed URL prefix.  The arguments are `PyVal`s because the values
come straight out of `dict.get`. -/
def create_google_maps_link (latitude longitude : PyVal) : List Char :=
  if pyIsZero latitude && pyIsZero longitude then
    ("No coordinates available").data
  else
    ("https://www.google.com/maps/search/?api=1&query=").data
      ++ pyToStr latitude ++ ',' :: pyToStr longitude

/-- Upper-case hexadecimal digit of `n < 16`, as `urllib.parse.quote`
emits. -/
def hexChUpper (n : Nat) : Char :=
  if n < 10 then digitCh n
  else if n = 10 then 'A'
  else if n = 11 then 'B'
  else if n = 12 then 'C'
  else if n = 13 then 'D'
  else if n = 14 then 'E'
  else 'F'

/-- Characters `urllib.parse.quote` passes through with its default
`safe='/'`: ASCII letters, digits, `_.-~` and `/`. -/
def isQuoteSafe (c : Char) : Bool :=
  c.isAlpha || c.isDigit || c = '_' || c = '.' || c = '-' || c = '~' || c = '/'

/-- Model of `urllib.parse.quote` with its default `safe='/'` on ASCII
input: every unsafe character is replaced by `%` and two upper-case hex
digits of its code.  (Used by the superseded single-provider variant at
`locator.py` line 38, and by the specification's words "percent-encoded";
the multi-provider variant under verification does not call it.) -/
def urlQuote (s : List Char) : List Char :=
  (s.map (fun c =>
    if isQuoteSafe c then [c]
    else ['%', hexChUpper (c.toNat / 16 % 16), hexChUpper (c.toNat % 16)])).flatten

/-- Traverse a list through a fallible function, failing when any element
does (the shape of CPython's parse loops over octets and hextets). -/
def mapMOpt (f : α → Option β) : List α → Option (List β)
  | [] => some []
  | a :: l =>
    match f a, mapMOpt f l with
    | some b, some bs => some (b :: bs)
    | _, _ => none

/-- Model of CPython `ipaddress._BaseV4._parse_octet`: an IPv4 dotted-quad
octet must be a non-empty ASCII-decimal string of at most 3 digits, with no
leading zero (unless it is exactly `"0"`) and value at most 255. -/
def parse_octet? (s : List Char) : Option Nat :=
  if s.isEmpty then none
  else if !(s.all isDigitCh) then none
  else if 3 < s.length then none
  else if decide (1 < s.length) && (s.headD ' ' == '0') then none
  else if 255 < digitsVal s then none
  else some (digitsVal s)

/-- Model of CPython `ipaddress._BaseV4._ip_int_from_string`: split on
`'.'` into exactly four octets, each parsed by `parse_octet?`. -/
def ipv4_octets? (s : List Char) : Option (List Nat) :=
  let octs := splitCh '.' s
  if octs.length ≠ 4 then none
  else mapMOpt parse_octet? octs

/-- `IPv4Address(s)` accepts the string `s`. -/
def ipv4_ok (s : List Char) : Bool := (ipv4_octets? s).isSome

/-- Model of CPython `ipaddress._BaseV6._parse_hextet`: 1 to 4 characters,
all hexadecimal digits. -/
def parse_hextet? (s : List Char) : Option Nat :=
  if s.all isHexCh then
    if 1 ≤ s.length ∧ s.length ≤ 4 then some (hexVal s)
    else none
  else none

/-- A colon-separated chunk of an IPv6 literal after CPython's
embedded-IPv4 rewriting: either an original substring, or one of the two
hextet values CPython appends as `'%x' % value` strings when the last
chunk was a dotted quad.  (Reparsing such a rendering through
`_parse_hextet` returns the value itself — the values are below 2^16 — so
the model carries the value directly.) -/
inductive V6Chunk where
  | raw : List Char → V6Chunk
  | emb : Nat → V6Chunk
deriving DecidableEq, Repr

/-- CPython's `if not parts[i]` emptiness test on a chunk; the appended
`'%x'` renderings are never empty. -/
def chunkIsEmpty : V6Chunk → Bool
  | .raw s => s.isEmpty
  | .emb _ => false

/-- Parse a chunk as a hextet. -/
def chunkHextet? : V6Chunk → Option Nat
  | .raw s => parse_hextet? s
  | .emb n => some n

/-- CPython's embedded-IPv4 rewriting in `_BaseV6._ip_int_from_string`:
when the last colon-chunk contains a `'.'` it must parse as an IPv4
address, and is replaced by two 16-bit hextet values; otherwise the chunks
are kept as they are. -/
def embedIPv4 (parts : List (List Char)) : Option (List V6Chunk) :=
  match parts.getLast? with
  | none => none
  | some last =>
    if last.contains '.' then
      match ipv4_octets? last with
      | some [a, b, c, d] =>
        some ((parts.dropLast).map V6Chunk.raw
          ++ [V6Chunk.emb (a * 256 + b), V6Chunk.emb (c * 256 + d)])
      | _ => none
    else some (parts.map V6Chunk.raw)

/-- The indices CPython's skip-index loop inspects (`range(1, len-1)`)
that hold an empty chunk: the candidate positions of the `"::"` gap. -/
def internalEmpties (parts : List V6Chunk) : List Nat :=
  (List.range parts.length).filter
    (fun i => decide (1 ≤ i) && decide (i + 1 < parts.length)
      && chunkIsEmpty (parts.getD i (V6Chunk.raw [])))

/-- Core of CPython `_BaseV6._ip_int_from_string` after the minimum-three
check and the embedded-IPv4 rewriting: at most 9 chunks; at most one
internal empty chunk (the `"::"` gap); without a gap, exactly 8 non-empty
hextets; with a gap at index `i`, an empty first (resp. last) chunk is
permitted only as the other half of a leading (resp. trailing) `"::"`, at
least one hextet group must be skipped, and the chunks on both sides of
the gap must all parse as hextets. -/
def ipv6_chunks_ok (parts : List V6Chunk) : Bool :=
  if 9 < parts.length then false
  else
    match internalEmpties parts with
    | [] =>
      parts.length == 8
        && !(chunkIsEmpty (parts.getD 0 (V6Chunk.raw [])))
        && !(chunkIsEmpty (parts.getD (parts.length - 1) (V6Chunk.raw [])))
        && (mapMOpt chunkHextet? parts).isSome
    | [i] =>
      let lenp := parts.length
      let headEmpty := chunkIsEmpty (parts.getD 0 (V6Chunk.raw []))
      let lastEmpty := chunkIsEmpty (parts.getD (lenp - 1) (V6Chunk.raw []))
      let hi := if headEmpty then i - 1 else i
      let lo0 := lenp - i - 1
      let lo := if lastEmpty then lo0 - 1 else lo0
      if headEmpty && !(hi == 0) then false
      else if lastEmpty && !(lo == 0) then false
      else if 8 ≤ hi + lo then false
      else (mapMOpt chunkHextet? (parts.take hi)).isSome
        && (mapMOpt chunkHextet? (parts.drop (lenp - lo))).isSome
    | _ => false

/-- Core of CPython `IPv6Address._ip_int_from_string`, applied to the
address part (after any `"%zone"` scope id has been split off): at least
three colon-chunks, embedded-IPv4 rewriting of a dotted last chunk, then
the chunk checks. -/
def ipv6_addr_ok (s : List Char) : Bool :=
  let parts := splitCh ':' s
  if parts.length < 3 then false
  else
    match embedIPv4 parts with
    | none => false
    | some chunks => ipv6_chunks_ok chunks

/-- CPython `IPv6Address._split_scope_id` (present since Python 3.9): the
string is partitioned at its first `'%'`.  No separator leaves the string
whole; a separator followed by an empty zone id, or by a zone id holding a
further `'%'`, raises `AddressValueError`; otherwise the part before the
separator is the address to parse. -/
def split_scope_id? (s : List Char) : Option (List Char) :=
  match splitCh '%' s with
  | [addr] => some addr
  | [addr, zone] => if zone.isEmpty then none else some addr
  | _ => none

/-- `IPv6Address(s)` accepting the string `s`: the optional `"%zone"`
scope suffix is split off (rejecting a malformed one) and the remainder
parsed as a colon-hex address.  Together with `parse_octet?`'s
leading-zero rejection this models CPython 3.9.5 and later. -/
def ipv6_ok (s : List Char) : Bool :=
  match split_scope_id? s with
  | none => false
  | some addr => ipv6_addr_ok addr

/-- Model of CPython `ipaddress.ip_address(s)` succeeding on a string:
first try IPv4, then IPv6. -/
def ip_address_ok (s : List Char) : Bool := ipv4_ok s || ipv6_ok s

/-- `IPLocationTracker.validate_ip_address` (`locator.py` lines 172-180):
`ipaddress.ip_address(ip)` inside `try`, `True` on success and `False` on
`ValueError`. -/
def validate_ip_address (ip : List Char) : Bool := ip_address_ok ip

/-- A raised Python exception, by class. -/
inductive PyExn where
  | valueError
  | indexError
  | attributeError
deriving DecidableEq, Repr

/-- The canonical output dictionary a normalizer builds (`locator.py`
lines 233-252 and analogues): the nested `location`/`network` sub-dicts
are flattened into one record.  Fields copied straight out of `dict.get`
keep the loose `PyVal` type; `ip`, `hostname` and the derived maps link
are always strings in the code. -/
structure LocationRecord where
  ip : List Char
  hostname : List Char
  country : PyVal
  country_code : PyVal
  city : PyVal
  region : PyVal
  postal_code : PyVal
  latitude : PyVal
  longitude : PyVal
  timezone : PyVal
  google_maps_link : List Char
  organization : PyVal
  isp : PyVal
  asn : PyVal
deriving DecidableEq, Repr, Inhabited

/-- `IPLocationTracker._process_ipapi_response` (`locator.py` lines
228-252): normalizer for ipapi.co. -/
def _process_ipapi_response (ip hostname : List Char) (geo : RawResp) :
    LocationRecord :=
  let latitude := pyGet geo ("latitude").data (.num ⟨0, 0⟩)
  let longitude := pyGet geo ("longitude").data (.num ⟨0, 0⟩)
  { ip := ip
    hostname := hostname
    country := pyGet geo ("country_name").data (.str ("Unknown").data)
    country_code := pyGet geo ("country_code").data (.str ("N/A").data)
    city := pyGet geo ("city").data (.str ("Unknown").data)
    region := pyGet geo ("region").data (.str ("Unknown").data)
    postal_code := pyGet geo ("postal").data (.str ("N/A").data)
    latitude := latitude
    longitude := longitude
    timezone := pyGet geo ("timezone").data (.str ("N/A").data)
    google_maps_link := create_google_maps_link latitude longitude
    organization := pyGet geo ("org").data (.str ("Unknown").data)
    isp := pyGet geo ("isp").data (.str ("Unknown").data)
    asn := pyGet geo ("asn").data (.str ("Unknown").data) }

/-- `IPLocationTracker._process_ipinfo_response` (`locator.py` lines
254-279): normalizer for ipinfo.io.  `geo_info.get('loc', '0,0')` is
`.split(',')` (an `AttributeError` if the value is not a string), then
`float(loc[0])` and `float(loc[1])` (a `ValueError` on an unparsable half,
an `IndexError` when there is no comma); such an exception is not caught
anywhere in this variant, so it is returned as an `Except.error`. -/
def _process_ipinfo_response (ip hostname : List Char) (geo : RawResp) :
    Except PyExn LocationRecord :=
  match pyGet geo ("loc").data (.str ("0,0").data) with
  | .num _ => .error .attributeError
  | .str locStr =>
    let loc := splitCh ',' locStr
    match pyFloat? (loc.headD []) with
    | none => .error .valueError
    | some latitude =>
      match loc.drop 1 with
      | [] => .error .indexError
      | second :: _ =>
        match pyFloat? second with
        | none => .error .valueError
        | some longitude =>
          .ok
            { ip := ip
              hostname := hostname
              country := pyGet geo ("country").data (.str ("Unknown").data)
              country_code := pyGet geo ("country").data (.str ("N/A").data)
              city := pyGet geo ("city").data (.str ("Unknown").data)
              region := pyGet geo ("region").data (.str ("Unknown").data)
              postal_code := pyGet geo ("postal").data (.str ("N/A").data)
              latitude := .num latitude
              longitude := .num longitude
              timezone := pyGet geo ("timezone").data (.str ("N/A").data)
              google_maps_link :=
                create_google_maps_link (.num latitude) (.num longitude)
              organization := pyGet geo ("org").data (.str ("Unknown").data)
              isp := .str ("N/A").data
              asn := .str ("N/A").data }

/-- `IPLocationTracker._process_ipapi_direct_response` (`locator.py` lines
281-305): normalizer for ip-api.com. -/
def _process_ipapi_direct_response (ip hostname : List Char)
    (geo : RawResp) : LocationRecord :=
  let latitude := pyGet geo ("lat").data (.num ⟨0, 0⟩)
  let longitude := pyGet geo ("lon").data (.num ⟨0, 0⟩)
  { ip := ip
    hostname := hostname
    country := pyGet geo ("country").data (.str ("Unknown").data)
    country_code := pyGet geo ("countryCode").data (.str ("N/A").data)
    city := pyGet geo ("city").data (.str ("Unknown").data)
    region := pyGet geo ("regionName").data (.str ("Unknown").data)
    postal_code := pyGet geo ("zip").data (.str ("N/A").data)
    latitude := latitude
    longitude := longitude
    timezone := pyGet geo ("timezone").data (.str ("N/A").data)
    google_maps_link := create_google_maps_link latitude longitude
    organization := pyGet geo ("org").data (.str ("Unknown").data)
    isp := pyGet geo ("isp").data (.str ("Unknown").data)
    asn := .str ("N/A").data }

/-- A provider descriptor, as in `self.apis` (`locator.py` lines
154-170). -/
structure Api where
  url : List Char
  name : List Char
  key_needed : Bool
deriving DecidableEq, Repr

/-- The fixed, ordered provider list of the multi-provider tracker. -/
def apis : List Api :=
  [⟨("https://ipapi.co/\x7b\x7d/json/").data, ("ipapi.co").data, false⟩,
   ⟨("https://ipinfo.io/\x7b\x7d/json").data, ("ipinfo.io").data, false⟩,
   ⟨("https://ip-api.com/json/\x7b\x7d").data, ("ip-api.com").data, false⟩]

/-- Outcome of `requests.get(url, timeout=5)` followed (on status 200) by
`response.json()`: a `requests.RequestException` during transport, or a
response with a status code and — when the body is read — either a parsed
JSON object or `none` for a body that fails to parse (whose
`JSONDecodeError` is a `RequestException` subclass, caught identically). -/
inductive FetchOutcome where
  | transportErr
  | resp (status : Nat) (body : Option RawResp)

/-- An observable collaborator call, in program order: the reverse-DNS
lookup, one HTTP fetch per provider attempt (tagged with the provider
name), and one `time.sleep(1)` inter-attempt delay. -/
inductive Ev where
  | dnsLookup
  | fetchCall (name : List Char)
  | sleepOne
deriving DecidableEq, Repr

/-- The provider loop of `get_detailed_geolocation` (`locator.py` lines
205-224), given a fetch oracle: returns `some` record on the first
provider whose response has status 200 and a parseable body (routed to the
normalizer selected by name), `none` after exhausting the list, or an
uncaught exception escaping a normalizer; paired with the trace of
collaborator calls.  `time.sleep(1)` executes only when the dispatch did
not return — the `except requests.RequestException: continue` skips it. -/
def tryApis (ip hostname : List Char) (fetch : Api → FetchOutcome) :
    List Api → Except PyExn (Option LocationRecord) × List Ev
  | [] => (.ok none, [])
  | a :: rest =>
    match fetch a with
    | .transportErr =>
      let r := tryApis ip hostname fetch rest
      (r.1, .fetchCall a.name :: r.2)
    | .resp status body =>
      if status = 200 then
        match body with
        | none =>
          let r := tryApis ip hostname fetch rest
          (r.1, .fetchCall a.name :: r.2)
        | some geo =>
          if a.name = ("ipapi.co").data then
            (.ok (some (_process_ipapi_response ip hostname geo)),
              [.fetchCall a.name])
          else if a.name = ("ipinfo.io").data then
            match _process_ipinfo_response ip hostname geo with
            | .ok lr => (.ok (some lr), [.fetchCall a.name])
            | .error e => (.error e, [.fetchCall a.name])
          else if a.name = ("ip-api.com").data then
            (.ok (some (_process_ipapi_direct_response ip hostname geo)),
              [.fetchCall a.name])
          else
            let r := tryApis ip hostname fetch rest
            (r.1, .fetchCall a.name :: .sleepOne :: r.2)
      else
        let r := tryApis ip hostname fetch rest
        (r.1, .fetchCall a.name :: .sleepOne :: r.2)

/-- The result dictionary of `get_detailed_geolocation`: a normalized
record or an `{"error": msg}` dictionary. -/
inductive ROut where
  | record : LocationRecord → ROut
  | errDict : List Char → ROut
deriving DecidableEq, Repr

/-- `IPLocationTracker.get_detailed_geolocation` (`locator.py` lines
191-226): validation gate, reverse-DNS lookup with `"N/A"` on
`herror`/`gaierror` (the DNS oracle gives `none` on such a failure), the
provider loop, and the terminal all-APIs-failed error.  Returns the result
(or uncaught exception) together with the collaborator-call trace. -/
def get_detailed_geolocation (dnsRes : Option (List Char))
    (fetch : Api → FetchOutcome) (ip : List Char) :
    Except PyExn ROut × List Ev :=
  if validate_ip_address ip = false then
    (.ok (.errDict ("Invalid IP address format").data), [])
  else
    let hostname := dnsRes.getD (("N/A").data)
    let r := tryApis ip hostname fetch apis
    (r.1.map (fun o =>
        match o with
        | some lr => ROut.record lr
        | none =>
          ROut.errDict
            ("Failed to retrieve geolocation from all APIs").data),
      Ev.dnsLookup :: r.2)

/-- A provider attempt that does not succeed: a transport error, a
non-success status code, or a success status whose body fails to parse. -/
def attemptFailsB : FetchOutcome → Bool
  | .transportErr => true
  | .resp status body => status != 200 || body.isNone

/-- The provider names the dispatch in `get_detailed_geolocation`
recognizes. -/
def knownName (name : List Char) : Bool :=
  name == ("ipapi.co").data || name == ("ipinfo.io").data
    || name == ("ip-api.com").data

/-- The normalizer the loop routes a successful raw response to, selected
by provider name exactly as the `if`/`elif` chain at `locator.py` lines
213-218 does (the final branch is unreachable for the three configured
names). -/
def dispatchNormalizer (name ip hostname : List Char) (geo : RawResp) :
    Except PyExn LocationRecord :=
  if name = ("ipapi.co").data then
    .ok (_process_ipapi_response ip hostname geo)
  else if name = ("ipinfo.io").data then
    _process_ipinfo_response ip hostname geo
  else if name = ("ip-api.com").data then
    .ok (_process_ipapi_direct_response ip hostname geo)
  else .ok (_process_ipapi_response ip hostname geo)

/-- The inter-attempt delay schedule the code actually follows, stated
independently of the loop: each attempted provider contributes its fetch
call, and a 1-second sleep follows exactly when the attempt returned a
response whose status code is not 200 (or, vacuously for the fixed list, a
200 response with a provider name the dispatch does not recognize); after
a transport error or an unparseable 200 body the loop advances with no
delay, and a successful dispatch ends the trace. -/
def delayPattern (fetch : Api → FetchOutcome) : List Api → List Ev
  | [] => []
  | a :: rest =>
    match fetch a with
    | .transportErr => .fetchCall a.name :: delayPattern fetch rest
    | .resp status body =>
      if status = 200 then
        match body with
        | none => .fetchCall a.name :: delayPattern fetch rest
        | some _ =>
          if knownName a.name then [.fetchCall a.name]
          else .fetchCall a.name :: .sleepOne :: delayPattern fetch rest
      else .fetchCall a.name :: .sleepOne :: delayPattern fetch rest

/-- The provider names fetched in a trace, in order. -/
def fetchNames : List Ev → List (List Char)
  | [] => []
  | .fetchCall n :: r => n :: fetchNames r
  | _ :: r => fetchNames r

/-- A canonical-record string field is populated: it carries the provider
value found under `key`, or one of the two fallback literals. -/
def StrPopulated (geo : RawResp) (key : List Char) (v : PyVal) : Prop :=
  pyGet? geo key = some v ∨ v = .str ("Unknown").data
    ∨ v = .str ("N/A").data

/-- Specification-side grammar ("dotted-quad"): a standards-conformant
IPv4 literal is four decimal octets, each at most 255 and written
canonically (no leading zeros), joined by dots. -/
def SpecIPv4 (s : List Char) : Prop :=
  ∃ a b c d : Nat, a ≤ 255 ∧ b ≤ 255 ∧ c ≤ 255 ∧ d ≤ 255 ∧
    s = natStr a ++ '.' :: natStr b ++ '.' :: natStr c ++ '.' :: natStr d

/-- Specification-side grammar: a colon-hex group of an IPv6 literal is
one to four hexadecimal digits. -/
def HexGroup (g : List Char) : Prop :=
  1 ≤ g.length ∧ g.length ≤ 4 ∧ ∀ c ∈ g, isHexCh c = true

/-- Specification-side grammar: an uncompressed IPv6 literal is eight
colon-hex groups joined by colons, or six groups followed by an embedded
IPv4 dotted quad (standing for the last two groups). -/
def SpecIPv6Full (s : List Char) : Prop :=
  (∃ gs : List (List Char), gs.length = 8 ∧ (∀ g ∈ gs, HexGroup g) ∧
    s = joinCh ':' gs)
  ∨ (∃ gs v4, gs.length = 6 ∧ (∀ g ∈ gs, HexGroup g) ∧ SpecIPv4 v4 ∧
    s = joinCh ':' (gs ++ [v4]))

/-- Specification-side grammar: a compressed IPv6 literal is a (possibly
empty) run of groups, `"::"` standing for at least one omitted zero group,
and a (possibly empty) run of groups, the trailing run optionally ending
in an embedded IPv4 quad standing for two groups; the written groups
account for at most seven of the eight. -/
def SpecIPv6Comp (s : List Char) : Prop :=
  ∃ pre post : List (List Char), (∀ g ∈ pre, HexGroup g) ∧
    s = joinCh ':' pre ++ ':' :: ':' :: joinCh ':' post ∧
    ((∀ g ∈ post, HexGroup g) ∧ pre.length + post.length ≤ 7
      ∨ (∃ gs v4, post = gs ++ [v4] ∧ (∀ g ∈ gs, HexGroup g) ∧
          SpecIPv4 v4 ∧ pre.length + post.length ≤ 6))

/-- Specification-side grammar: a standards-conformant IPv6 literal in
colon-hex form, compressed or not, with or without an embedded dotted
quad. -/
def SpecIPv6 (s : List Char) : Prop := SpecIPv6Full s ∨ SpecIPv6Comp s

/-- The ipinfo.io normalizer's record on a concrete sample lookup (the
default record when the normalizer raises, which the sample inputs below
never make it do). -/
def sampleIpinfoRec (geo : RawResp) : LocationRecord :=
  ((_process_ipinfo_response (("1.2.3.4").data) (("host").data)
    geo).toOption).getD default

/-! ## Basic rendering lemmas -/

theorem splitCh_ne_nil (sep : Char) (s : List Char) : splitCh sep s ≠ [] := by
  cases s with
  | nil => simp [splitCh]
  | cons c cs =>
    simp only [splitCh]
    split
    · simp
    · cases h : splitCh sep cs <;> simp

theorem joinCh_splitCh (sep : Char) (s : List Char) :
    joinCh sep (splitCh sep s) = s := by
  induction s with
  | nil => simp [splitCh, joinCh]
  | cons c cs ih =>
    simp only [splitCh]
    split
    · subst c
      cases h : splitCh sep cs with
      | nil => exact absurd h (splitCh_ne_nil sep cs)
      | cons p ps =>
        rw [h] at ih
        simp [joinCh, ← ih]
    · cases h : splitCh sep cs with
      | nil => exact absurd h (splitCh_ne_nil sep cs)
      | cons p ps =>
        rw [h] at ih
        cases ps with
        | nil => simp_all [joinCh]
        | cons q qs => simp_all [joinCh]

theorem splitCh_append (sep : Char) (p s : List Char) (hp : sep ∉ p)
    (q : List Char) (qs : List (List Char)) (h : splitCh sep s = q :: qs) :
    splitCh sep (p ++ s) = (p ++ q) :: qs := by
  induction p with
  | nil => simpa using h
  | cons c cs ih =>
    have hc : c ≠ sep := fun hc => hp (by simp [hc])
    have hcs : sep ∉ cs := fun hm => hp (by simp [hm])
    simp only [List.cons_append, splitCh, if_neg hc]
    rw [show cs.append s = cs ++ s from rfl, ih hcs]

theorem splitCh_joinCh (sep : Char) (ps : List (List Char)) (hne : ps ≠ [])
    (hfree : ∀ p ∈ ps, sep ∉ p) : splitCh sep (joinCh sep ps) = ps := by
  induction ps with
  | nil => exact absurd rfl hne
  | cons p ps ih =>
    cases ps with
    | nil =>
      have hp : sep ∉ p := hfree p (by simp)
      have : splitCh sep (p ++ ([] : List Char)) = (p ++ []) :: [] :=
        splitCh_append sep p [] hp [] [] (by simp [splitCh])
      simpa [joinCh] using this
    | cons q qs =>
      have hp : sep ∉ p := hfree p (by simp)
      have hrest : splitCh sep (joinCh sep (q :: qs)) = q :: qs :=
        ih (by simp) (fun r hr => hfree r (by simp [List.mem_cons.mp hr]))
      have hsep : splitCh sep (sep :: joinCh sep (q :: qs))
          = [] :: (q :: qs) := by
        simp [splitCh, hrest]
      have := splitCh_append sep p (sep :: joinCh sep (q :: qs)) hp
        [] (q :: qs) hsep
      simpa [joinCh] using this

theorem natStrAux_congr :
    ∀ f1 f2 n, n < f1 → n < f2 → natStrAux f1 n = natStrAux f2 n := by
  intro f1
  induction f1 with
  | zero => intro f2 n h; omega
  | succ f ih =>
    intro f2 n h1 h2
    cases f2 with
    | zero => omega
    | succ g =>
      simp only [natStrAux]
      by_cases h10 : n < 10
      · simp [h10]
      · have hd : n / 10 < f ∧ n / 10 < g := by
          have := Nat.div_lt_self (show 0 < n by omega) (show 1 < 10 by omega)
          omega
        simp only [if_neg h10, ih g (n / 10) hd.1 hd.2]

theorem natStr_eq (n : Nat) :
    natStr n
      = if n < 10 then [digitCh n]
        else natStr (n / 10) ++ [digitCh (n % 10)] := by
  by_cases h10 : n < 10
  · simp [natStr, natStrAux, h10]
  · have hd : n / 10 < n := Nat.div_lt_self (by omega) (by omega)
    rw [if_neg h10]
    show natStrAux (n + 1) n = natStr (n / 10) ++ [digitCh (n % 10)]
    rw [show natStrAux (n + 1) n
        = natStrAux n (n / 10) ++ [digitCh (n % 10)] from by
      simp [natStrAux, h10]]
    rw [natStrAux_congr n (n / 10 + 1) (n / 10) (by omega) (by omega)]
    rfl

/-! ## C4: the maps-link helper -/

/-- C4 counterexample: at latitude 51.5 and longitude -0.1 the helper
interpolates the numbers verbatim — the comma is not percent-encoded, so
the output differs from the percent-encoded form the claim demands. -/
theorem c4_counterexample :
    create_google_maps_link (.num ⟨515, 1⟩) (.num ⟨-1, 1⟩)
      = ("https://www.google.com/maps/search/?api=1&query=51.5,-0.1").data
    ∧ create_google_maps_link (.num ⟨515, 1⟩) (.num ⟨-1, 1⟩)
      ≠ ("https://www.google.com/maps/search/?api=1&query=").data
        ++ urlQuote (("51.5,-0.1").data) := by
  decide

/-- C4 (amended): `create_google_maps_link(0.0, 0.0)` is exactly the
literal `"No coordinates available"`; for every other numeric pair the
result is the fixed URL prefix followed by the two numbers, comma-
separated, interpolated verbatim (not percent-encoded). -/
theorem c4_maps_link (lat lon : DecNum) :
    (lat.m = 0 ∧ lon.m = 0 →
      create_google_maps_link (.num lat) (.num lon)
        = ("No coordinates available").data)
    ∧ (¬(lat.m = 0 ∧ lon.m = 0) →
      create_google_maps_link (.num lat) (.num lon)
        = ("https://www.google.com/maps/search/?api=1&query=").data
          ++ decRepr lat ++ ',' :: decRepr lon) := by
  constructor
  · rintro ⟨h1, h2⟩
    simp [create_google_maps_link, pyIsZero, h1, h2]
  · intro h
    have hz : (pyIsZero (.num lat) && pyIsZero (.num lon)) = false := by
      rcases Decidable.em (lat.m = 0) with h1 | h1
      · have h2 : lon.m ≠ 0 := fun h2 => h ⟨h1, h2⟩
        simp [pyIsZero, h2]
      · simp [pyIsZero, h1]
    simp [create_google_maps_link, hz, pyToStr]

/-- Witness for `c4_maps_link` at the zero pair and at (51.5, -0.1). -/
theorem c4_maps_link_witness :
    create_google_maps_link (.num ⟨0, 0⟩) (.num ⟨0, 0⟩)
      = ("No coordinates available").data
    ∧ create_google_maps_link (.num ⟨515, 1⟩) (.num ⟨-1, 1⟩)
      = ("https://www.google.com/maps/search/?api=1&query=").data
        ++ decRepr ⟨515, 1⟩ ++ ',' :: decRepr ⟨-1, 1⟩ :=
  ⟨(c4_maps_link ⟨0, 0⟩ ⟨0, 0⟩).1 ⟨rfl, rfl⟩,
   (c4_maps_link ⟨515, 1⟩ ⟨-1, 1⟩).2 (by decide)⟩

/-! ## C6: invalid input short-circuits with no collaborator calls -/

/-- C6: a string failing IP validation makes `get_detailed_geolocation`
return exactly the invalid-format error dictionary with an empty
collaborator trace — no fetch and no reverse-DNS lookup happens. -/
theorem c6_invalid_input (dnsRes : Option (List Char))
    (fetch : Api → FetchOutcome) (ip : List Char)
    (h : validate_ip_address ip = false) :
    get_detailed_geolocation dnsRes fetch ip
      = (.ok (.errDict ("Invalid IP address format").data), []) := by
  simp [get_detailed_geolocation, h]

/-- Witness for `c6_invalid_input` at `"not-an-ip"`. -/
theorem c6_invalid_input_witness :
    get_detailed_geolocation none (fun _ => .transportErr)
      (("not-an-ip").data)
      = (.ok (.errDict ("Invalid IP address format").data), []) :=
  c6_invalid_input none (fun _ => .transportErr) (("not-an-ip").data)
    (by decide)

/-! ## C5: exhaustion of all providers -/

theorem tryApis_all_fail (ip hs : List Char) (fetch : Api → FetchOutcome)
    (l : List Api) (h : ∀ a ∈ l, attemptFailsB (fetch a) = true) :
    (tryApis ip hs fetch l).1 = .ok none := by
  induction l with
  | nil => rfl
  | cons a rest ih =>
    have ha := h a (by simp)
    have hr := ih (fun b hb => h b (by simp [hb]))
    cases hfa : fetch a with
    | transportErr => simp [tryApis, hfa, hr]
    | resp status body =>
      rw [hfa] at ha
      by_cases hst : status = 200
      · subst hst
        cases body with
        | none => simp [tryApis, hfa, hr]
        | some geo => simp [attemptFailsB] at ha
      · simp [tryApis, hfa, hst, hr]

/-- C5: when every provider attempt fails (transport error or non-success
status), the resolver returns exactly the terminal all-APIs-failed error
dictionary; no per-provider error reaches the caller. -/
theorem c5_all_providers_fail (dnsRes : Option (List Char))
    (fetch : Api → FetchOutcome) (ip : List Char)
    (hv : validate_ip_address ip = true)
    (hfail : ∀ a ∈ apis, fetch a = .transportErr
      ∨ ∃ status body, fetch a = .resp status body ∧ status ≠ 200) :
    (get_detailed_geolocation dnsRes fetch ip).1
      = .ok (.errDict
          ("Failed to retrieve geolocation from all APIs").data) := by
  have h : ∀ a ∈ apis, attemptFailsB (fetch a) = true := by
    intro a ha
    rcases hfail a ha with h | ⟨st, body, heq, hne⟩
    · simp [h, attemptFailsB]
    · simp [heq, attemptFailsB, hne]
  have hloop := tryApis_all_fail ip (dnsRes.getD (("N/A").data)) fetch apis h
  simp [get_detailed_geolocation, hv, hloop, Except.map]

/-- Witness for `c5_all_providers_fail`: all three transports fail for
`8.8.8.8`. -/
theorem c5_all_providers_fail_witness :
    (get_detailed_geolocation (some (("host").data))
      (fun _ => .transportErr) (("8.8.8.8").data)).1
      = .ok (.errDict
          ("Failed to retrieve geolocation from all APIs").data) :=
  c5_all_providers_fail (some (("host").data)) (fun _ => .transportErr)
    (("8.8.8.8").data) (by decide) (fun a _ => Or.inl rfl)

/-! ## The ipinfo.io normalizer: shared lemmas -/

theorem ipinfo_ok_elim (ip hs : List Char) (geo : RawResp)
    (lr : LocationRecord) (P : Prop)
    (h : _process_ipinfo_response ip hs geo = .ok lr)
    (hP : ∀ latitude longitude,
      lr = { ip := ip, hostname := hs,
             country := pyGet geo (("country").data) (.str ("Unknown").data),
             country_code := pyGet geo (("country").data) (.str ("N/A").data),
             city := pyGet geo (("city").data) (.str ("Unknown").data),
             region := pyGet geo (("region").data) (.str ("Unknown").data),
             postal_code := pyGet geo (("postal").data) (.str ("N/A").data),
             latitude := .num latitude, longitude := .num longitude,
             timezone := pyGet geo (("timezone").data) (.str ("N/A").data),
             google_maps_link :=
               create_google_maps_link (.num latitude) (.num longitude),
             organization := pyGet geo (("org").data) (.str ("Unknown").data),
             isp := .str ("N/A").data, asn := .str ("N/A").data } → P) : P := by
  unfold _process_ipinfo_response at h
  split at h
  · exact absurd h (by simp)
  · dsimp only [] at h
    split at h
    · exact absurd h (by simp)
    · split at h
      · exact absurd h (by simp)
      · split at h
        · exact absurd h (by simp)
        · simp only [Except.ok.injEq] at h
          exact hP _ _ h.symm

/-- The ipinfo.io normalizer with the `loc` key absent: the default
`'0,0'` parses to the sentinel coordinates. -/
theorem ipinfo_loc_missing (ip hs : List Char) (geo : RawResp)
    (h : pyGet? geo (("loc").data) = none) :
    _process_ipinfo_response ip hs geo
      = .ok { ip := ip, hostname := hs,
              country := pyGet geo (("country").data) (.str ("Unknown").data),
              country_code := pyGet geo (("country").data) (.str ("N/A").data),
              city := pyGet geo (("city").data) (.str ("Unknown").data),
              region := pyGet geo (("region").data) (.str ("Unknown").data),
              postal_code := pyGet geo (("postal").data) (.str ("N/A").data),
              latitude := .num ⟨0, 0⟩, longitude := .num ⟨0, 0⟩,
              timezone := pyGet geo (("timezone").data) (.str ("N/A").data),
              google_maps_link := ("No coordinates available").data,
              organization := pyGet geo (("org").data) (.str ("Unknown").data),
              isp := .str ("N/A").data, asn := .str ("N/A").data } := by
  unfold _process_ipinfo_response
  rw [show pyGet geo (("loc").data) (.str ("0,0").data)
      = .str (("0,0").data) from by simp [pyGet, h]]
  rfl

/-! ## C3: the combined coordinate field of ipinfo.io -/

/-- C3 counterexample: a malformed `loc` value (no comma, unparsable as a
float) makes the ipinfo.io normalizer raise an uncaught `ValueError`
instead of degrading to the `0.0,0.0` sentinel. -/
theorem c3_counterexample :
    _process_ipinfo_response (("1.2.3.4").data) (("h").data)
      [((("loc").data), .str ("garbage").data)] = .error .valueError := by
  decide

/-- C3 (amended): a *missing* `loc` key degrades safely — the default
`'0,0'` yields the `0.0,0.0` sentinel coordinates and the no-coordinates
maps link, and normalization continues; but a *malformed* `loc` value
raises an uncaught exception (`ValueError` on an unparsable first half,
`IndexError` when there is no comma), aborting the lookup. -/
theorem c3_loc_fail_safe (ip hs : List Char) (geo : RawResp) :
    (pyGet? geo (("loc").data) = none →
      ∃ lr, _process_ipinfo_response ip hs geo = .ok lr
        ∧ lr.latitude = .num ⟨0, 0⟩ ∧ lr.longitude = .num ⟨0, 0⟩
        ∧ lr.google_maps_link = ("No coordinates available").data)
    ∧ (∀ locs, pyGet? geo (("loc").data) = some (.str locs) →
        pyFloat? ((splitCh ',' locs).headD []) = none →
        _process_ipinfo_response ip hs geo = .error .valueError)
    ∧ (∀ locs d, pyGet? geo (("loc").data) = some (.str locs) →
        (splitCh ',' locs).length = 1 →
        pyFloat? ((splitCh ',' locs).headD []) = some d →
        _process_ipinfo_response ip hs geo = .error .indexError) := by
  refine ⟨?_, ?_, ?_⟩
  · intro h
    exact ⟨_, ipinfo_loc_missing ip hs geo h, rfl, rfl, rfl⟩
  · intro locs hsome hnone
    unfold _process_ipinfo_response
    rw [show pyGet geo (("loc").data) (.str ("0,0").data) = .str locs from by
      simp [pyGet, hsome]]
    dsimp only []
    rw [hnone]
  · intro locs d hsome hlen hd
    unfold _process_ipinfo_response
    rw [show pyGet geo (("loc").data) (.str ("0,0").data) = .str locs from by
      simp [pyGet, hsome]]
    dsimp only []
    rw [hd, show (splitCh ',' locs).drop 1 = [] from
      List.drop_eq_nil_of_le (by omega)]

/-- Witness for `c3_loc_fail_safe`: the missing-key sentinel at an empty
response, a `ValueError` at `loc = "x,y"`, an `IndexError` at
`loc = "51.5"`. -/
theorem c3_loc_fail_safe_witness :
    ((_process_ipinfo_response (("1.2.3.4").data) (("h").data) []).toOption.map
        (fun lr => (lr.latitude, lr.longitude, lr.google_maps_link)))
      = some (.num ⟨0, 0⟩, .num ⟨0, 0⟩, ("No coordinates available").data)
    ∧ _process_ipinfo_response (("1.2.3.4").data) (("h").data)
        [((("loc").data), .str ("x,y").data)] = .error .valueError
    ∧ _process_ipinfo_response (("1.2.3.4").data) (("h").data)
        [((("loc").data), .str ("51.5").data)] = .error .indexError := by
  refine ⟨?_, ?_, ?_⟩
  · obtain ⟨lr, hok, h1, h2, h3⟩ :=
      (c3_loc_fail_safe (("1.2.3.4").data) (("h").data) []).1 (by decide)
    rw [hok]
    simp [Except.toOption, h1, h2, h3]
  · exact (c3_loc_fail_safe _ _ _).2.1 (("x,y").data) (by decide) (by decide)
  · exact (c3_loc_fail_safe _ _ _).2.2 (("51.5").data) ⟨515, 1⟩ (by decide)
      (by decide) (by decide)

/-! ## C9: reverse-DNS failure is non-fatal -/

theorem tryApis_hostname (ip hs : List Char) (fetch : Api → FetchOutcome)
    (l : List Api) (lr : LocationRecord)
    (h : (tryApis ip hs fetch l).1 = .ok (some lr)) : lr.hostname = hs := by
  induction l with
  | nil => simp [tryApis] at h
  | cons a rest ih =>
    cases hfa : fetch a with
    | transportErr =>
      rw [show (tryApis ip hs fetch (a :: rest)).1
          = (tryApis ip hs fetch rest).1 from by simp [tryApis, hfa]] at h
      exact ih h
    | resp status body =>
      by_cases hst : status = 200
      · subst hst
        cases body with
        | none =>
          rw [show (tryApis ip hs fetch (a :: rest)).1
              = (tryApis ip hs fetch rest).1 from by simp [tryApis, hfa]] at h
          exact ih h
        | some geo =>
          by_cases h1 : a.name = ("ipapi.co").data
          · simp [tryApis, hfa, h1] at h
            rw [← h]
            rfl
          · by_cases h2 : a.name = ("ipinfo.io").data
            · cases hn : _process_ipinfo_response ip hs geo with
              | error e => simp [tryApis, hfa, h1, h2, hn] at h
              | ok lr2 =>
                simp [tryApis, hfa, h1, h2, hn] at h
                subst h
                refine ipinfo_ok_elim ip hs geo lr2 _ hn
                  (fun la lo hEq => ?_)
                rw [hEq]
            · by_cases h3 : a.name = ("ip-api.com").data
              · simp [tryApis, hfa, h1, h2, h3] at h
                rw [← h]
                rfl
              · simp [tryApis, hfa, h1, h2, h3] at h
                exact ih h
      · rw [show (tryApis ip hs fetch (a :: rest)).1
            = (tryApis ip hs fetch rest).1 from by simp [tryApis, hfa, hst]] at h
        exact ih h

/-- C9: when the reverse-DNS lookup fails (the oracle reports `none`), a
successful resolution still yields a full record whose hostname is the
`"N/A"` sentinel. -/
theorem c9_dns_failure_nonfatal (fetch : Api → FetchOutcome)
    (ip : List Char) (lr : LocationRecord)
    (hv : validate_ip_address ip = true)
    (hres : (get_detailed_geolocation none fetch ip).1 = .ok (.record lr)) :
    lr.hostname = ("N/A").data := by
  unfold get_detailed_geolocation at hres
  rw [if_neg (by simp [hv])] at hres
  dsimp only [] at hres
  simp only [Option.getD_none] at hres
  cases hr : (tryApis ip (("N/A").data) fetch apis).1 with
  | error e => rw [hr] at hres; simp [Except.map] at hres
  | ok o =>
    rw [hr] at hres
    cases o with
    | none => simp [Except.map] at hres
    | some lr2 =>
      simp [Except.map] at hres
      subst hres
      exact tryApis_hostname ip (("N/A").data) fetch apis lr2 hr

/-- Witness for `c9_dns_failure_nonfatal`: ipapi.co succeeds for
`8.8.8.8` while the reverse lookup fails. -/
theorem c9_dns_failure_nonfatal_witness :
    (_process_ipapi_response (("8.8.8.8").data) (("N/A").data) []).hostname
      = ("N/A").data :=
  c9_dns_failure_nonfatal
    (fun a => if a.name = ("ipapi.co").data then .resp 200 (some [])
      else .transportErr)
    (("8.8.8.8").data) _ (by decide) (by decide)

/-! ## C10: the reused `country` key of ipinfo.io -/

/-- C10: the ipinfo.io normalizer reads both canonical country fields from
the same raw `country` key with different defaults, so the two fields are
equal whenever the key is present and diverge to `"Unknown"`/`"N/A"`
when it is absent. -/
theorem c10_ipinfo_country_reuse (ip hs : List Char) (geo : RawResp)
    (lr : LocationRecord)
    (h : _process_ipinfo_response ip hs geo = .ok lr) :
    (∀ v, pyGet? geo (("country").data) = some v →
      lr.country = v ∧ lr.country_code = v)
    ∧ (pyGet? geo (("country").data) = none →
      lr.country = .str ("Unknown").data
        ∧ lr.country_code = .str ("N/A").data) := by
  refine ipinfo_ok_elim ip hs geo lr _ h (fun la lo hEq => ?_)
  subst hEq
  constructor
  · intro v hv
    constructor <;> simp [pyGet, hv]
  · intro hv
    constructor <;> simp [pyGet, hv]

/-- Witness for `c10_ipinfo_country_reuse`: a response with
`country = "GB"` and one without the key. -/
theorem c10_ipinfo_country_reuse_witness :
    (sampleIpinfoRec [((("country").data), .str ("GB").data),
        ((("loc").data), .str ("51.5,-0.1").data)]).country
      = .str ("GB").data
    ∧ (sampleIpinfoRec [((("country").data), .str ("GB").data),
        ((("loc").data), .str ("51.5,-0.1").data)]).country_code
      = .str ("GB").data
    ∧ (sampleIpinfoRec []).country = .str ("Unknown").data
    ∧ (sampleIpinfoRec []).country_code = .str ("N/A").data := by
  have h1 := (c10_ipinfo_country_reuse (("1.2.3.4").data) (("host").data)
      [((("country").data), .str ("GB").data),
       ((("loc").data), .str ("51.5,-0.1").data)]
      (sampleIpinfoRec [((("country").data), .str ("GB").data),
        ((("loc").data), .str ("51.5,-0.1").data)])
      (by decide)).1 (.str ("GB").data) (by decide)
  have h2 := (c10_ipinfo_country_reuse (("1.2.3.4").data) (("host").data) []
      (sampleIpinfoRec []) (by decide)).2 (by decide)
  exact ⟨h1.1, h1.2, h2.1, h2.2⟩

/-! ## C2: the inter-attempt delay -/

/-- C2 counterexample: with ipapi.co failing on transport and ipinfo.io
succeeding, two consecutive provider attempts happen with no sleep between
them — the claimed delay after a transport error is skipped. -/
theorem c2_counterexample :
    (get_detailed_geolocation (some (("h").data))
        (fun a => if a.name = ("ipapi.co").data then .transportErr
          else .resp 200 (some [])) (("8.8.8.8").data)).2
      = [Ev.dnsLookup, .fetchCall (("ipapi.co").data),
         .fetchCall (("ipinfo.io").data)]
    ∧ Ev.sleepOne ∉
        (get_detailed_geolocation (some (("h").data))
          (fun a => if a.name = ("ipapi.co").data then .transportErr
            else .resp 200 (some [])) (("8.8.8.8").data)).2 := by
  decide

theorem tryApis_trace (ip hs : List Char) (fetch : Api → FetchOutcome)
    (l : List Api) : (tryApis ip hs fetch l).2 = delayPattern fetch l := by
  induction l with
  | nil => rfl
  | cons a rest ih =>
    cases hfa : fetch a with
    | transportErr => simp [tryApis, delayPattern, hfa, ih]
    | resp status body =>
      by_cases hst : status = 200
      · subst hst
        cases body with
        | none => simp [tryApis, delayPattern, hfa, ih]
        | some geo =>
          by_cases h1 : a.name = ("ipapi.co").data
          · simp [tryApis, delayPattern, hfa, h1, knownName]
          · by_cases h2 : a.name = ("ipinfo.io").data
            · cases hn : _process_ipinfo_response ip hs geo with
              | error e =>
                simp [tryApis, delayPattern, hfa, h1, h2, hn, knownName]
              | ok lr2 =>
                simp [tryApis, delayPattern, hfa, h1, h2, hn, knownName]
            · by_cases h3 : a.name = ("ip-api.com").data
              · simp [tryApis, delayPattern, hfa, h1, h2, h3, knownName]
              · simp [tryApis, delayPattern, hfa, h1, h2, h3, knownName, ih]
      · simp [tryApis, delayPattern, hfa, hst, ih]

/-- C2 (amended): for a validated address the collaborator trace is the
reverse-DNS lookup followed by `delayPattern`: the 1-second sleep runs
exactly after an attempt whose response had a non-success status code;
after a transport error (or an unparseable success body) the loop advances
to the next provider immediately, with no delay. -/
theorem c2_delay_schedule (dnsRes : Option (List Char))
    (fetch : Api → FetchOutcome) (ip : List Char)
    (hv : validate_ip_address ip = true) :
    (get_detailed_geolocation dnsRes fetch ip).2
      = Ev.dnsLookup :: delayPattern fetch apis := by
  unfold get_detailed_geolocation
  rw [if_neg (by simp [hv])]
  dsimp only []
  rw [tryApis_trace]

/-- Witness for `c2_delay_schedule`: first provider HTTP 500 (delay),
second transport error (no delay), third succeeds. -/
theorem c2_delay_schedule_witness :
    (get_detailed_geolocation none
        (fun a => if a.name = ("ipapi.co").data then .resp 500 none
          else if a.name = ("ipinfo.io").data then .transportErr
          else .resp 200 (some [])) (("8.8.8.8").data)).2
      = Ev.dnsLookup :: delayPattern
          (fun a => if a.name = ("ipapi.co").data then .resp 500 none
            else if a.name = ("ipinfo.io").data then .transportErr
            else .resp 200 (some [])) apis :=
  c2_delay_schedule none _ (("8.8.8.8").data) (by decide)

/-! ## C1: first success wins, in fixed provider order -/

theorem fetchNames_fetchCall_mem (n : List Char) (t : List Ev)
    (h : Ev.fetchCall n ∈ t) : n ∈ fetchNames t := by
  induction t with
  | nil => cases h
  | cons e r ih =>
    rcases List.mem_cons.mp h with heq | hmem
    · subst heq
      simp [fetchNames]
    · cases e with
      | dnsLookup => exact ih hmem
      | sleepOne => exact ih hmem
      | fetchCall m => exact List.mem_cons.mpr (Or.inr (ih hmem))

theorem tryApis_cons_fail (ip hs : List Char) (fetch : Api → FetchOutcome)
    (a : Api) (rest : List Api) (hf : attemptFailsB (fetch a) = true) :
    (tryApis ip hs fetch (a :: rest)).1 = (tryApis ip hs fetch rest).1
    ∧ fetchNames (tryApis ip hs fetch (a :: rest)).2
      = a.name :: fetchNames (tryApis ip hs fetch rest).2 := by
  cases hfa : fetch a with
  | transportErr => constructor <;> simp [tryApis, hfa, fetchNames]
  | resp status body =>
    rw [hfa] at hf
    by_cases hst : status = 200
    · subst hst
      cases body with
      | none => constructor <;> simp [tryApis, hfa, fetchNames]
      | some geo => simp [attemptFailsB] at hf
    · constructor <;> simp [tryApis, hfa, hst, fetchNames]

theorem tryApis_cons_success (ip hs : List Char)
    (fetch : Api → FetchOutcome) (a : Api) (rest : List Api)
    (geo : RawResp) (hfa : fetch a = .resp 200 (some geo))
    (hk : knownName a.name = true) :
    tryApis ip hs fetch (a :: rest)
      = ((dispatchNormalizer a.name ip hs geo).map some,
         [.fetchCall a.name]) := by
  simp only [knownName, Bool.or_eq_true, beq_iff_eq] at hk
  by_cases h1 : a.name = ("ipapi.co").data
  · simp [tryApis, hfa, h1, dispatchNormalizer, Except.map]
  · by_cases h2 : a.name = ("ipinfo.io").data
    · cases hn : _process_ipinfo_response ip hs geo with
      | error e =>
        simp [tryApis, hfa, h1, h2, hn, dispatchNormalizer, Except.map]
      | ok lr =>
        simp [tryApis, hfa, h1, h2, hn, dispatchNormalizer, Except.map]
    · have h3 : a.name = ("ip-api.com").data := by tauto
      simp [tryApis, hfa, h1, h2, h3, dispatchNormalizer, Except.map]

theorem tryApis_first_success (ip hs : List Char)
    (fetch : Api → FetchOutcome) :
    ∀ (l : List Api) (j : Nat) (hj : j < l.length) (geo : RawResp),
    (∀ k (hk : k < j),
      attemptFailsB (fetch (l.get ⟨k, Nat.lt_trans hk hj⟩)) = true) →
    fetch (l.get ⟨j, hj⟩) = .resp 200 (some geo) →
    knownName (l.get ⟨j, hj⟩).name = true →
    (tryApis ip hs fetch l).1
      = (dispatchNormalizer (l.get ⟨j, hj⟩).name ip hs geo).map some
    ∧ fetchNames (tryApis ip hs fetch l).2
      = (l.take (j + 1)).map Api.name := by
  intro l
  induction l with
  | nil => intro j hj; exact absurd hj (by simp)
  | cons a rest ih =>
    intro j hj geo hfail hsucc hk
    cases j with
    | zero =>
      rw [tryApis_cons_success ip hs fetch a rest geo hsucc hk]
      exact ⟨rfl, by simp [fetchNames]⟩
    | succ j =>
      have hfa : attemptFailsB (fetch a) = true := hfail 0 (Nat.succ_pos j)
      obtain ⟨hf1, hf2⟩ := tryApis_cons_fail ip hs fetch a rest hfa
      have hj' : j < rest.length := by simpa using hj
      have ihh := ih j hj' geo
        (fun k hk => by simpa using hfail (k + 1) (by omega))
        (by simpa using hsucc) (by simpa using hk)
      constructor
      · rw [hf1, ihh.1]
        simp
      · rw [hf2, ihh.2]
        simp

/-- C1: for a validated address, the first provider in the fixed order
whose fetch returns status 200 with a parseable body has its raw response
routed to the normalizer matched by its name, whose output is the returned
result; exactly the providers up to and including it are fetched, and no
later provider is ever attempted. -/
theorem c1_first_success_wins (dnsRes : Option (List Char))
    (fetch : Api → FetchOutcome) (ip : List Char) (j : Nat)
    (geo : RawResp) (hv : validate_ip_address ip = true)
    (hj : j < apis.length)
    (hfail : ∀ k (hk : k < j),
      attemptFailsB (fetch (apis.get ⟨k, Nat.lt_trans hk hj⟩)) = true)
    (hsucc : fetch (apis.get ⟨j, hj⟩) = .resp 200 (some geo)) :
    (get_detailed_geolocation dnsRes fetch ip).1
      = (dispatchNormalizer (apis.get ⟨j, hj⟩).name ip
          (dnsRes.getD (("N/A").data)) geo).map ROut.record
    ∧ fetchNames (get_detailed_geolocation dnsRes fetch ip).2
      = (apis.take (j + 1)).map Api.name
    ∧ ∀ k (hk : k < apis.length), j < k →
        Ev.fetchCall ((apis.get ⟨k, hk⟩).name)
          ∉ (get_detailed_geolocation dnsRes fetch ip).2 := by
  have hkn : knownName (apis.get ⟨j, hj⟩).name = true := by
    have hj3 : j < 3 := by simpa [apis] using hj
    interval_cases j <;> rfl
  obtain ⟨h1, h2⟩ := tryApis_first_success ip (dnsRes.getD (("N/A").data))
    fetch apis j hj geo hfail hsucc hkn
  unfold get_detailed_geolocation
  rw [if_neg (by simp [hv])]
  dsimp only []
  refine ⟨?_, ?_, ?_⟩
  · rw [h1]
    cases dispatchNormalizer (apis.get ⟨j, hj⟩).name ip
        (dnsRes.getD (("N/A").data)) geo with
    | error e => rfl
    | ok lr => rfl
  · show fetchNames (tryApis ip (dnsRes.getD (("N/A").data)) fetch apis).2
      = (apis.take (j + 1)).map Api.name
    exact h2
  · intro k hkk hjk hmem
    have hmem1 := fetchNames_fetchCall_mem _ _ hmem
    have hmem2 : (apis.get ⟨k, hkk⟩).name
        ∈ fetchNames (tryApis ip (dnsRes.getD (("N/A").data)) fetch apis).2 :=
      hmem1
    rw [h2] at hmem2
    have hj3 : j < 3 := by simpa [apis] using hj
    have hk3 : k < 3 := by simpa [apis] using hkk
    interval_cases j <;> interval_cases k <;> try omega
    · rw [show (apis.get ⟨1, hkk⟩).name = ("ipinfo.io").data from rfl]
        at hmem2
      exact absurd hmem2 (by decide)
    · rw [show (apis.get ⟨2, hkk⟩).name = ("ip-api.com").data from rfl]
        at hmem2
      exact absurd hmem2 (by decide)
    · rw [show (apis.get ⟨2, hkk⟩).name = ("ip-api.com").data from rfl]
        at hmem2
      exact absurd hmem2 (by decide)

/-- Witness for `c1_first_success_wins`: ipapi.co fails with HTTP 404 and
ipinfo.io succeeds for `8.8.8.8`. -/
theorem c1_first_success_wins_witness :
    (get_detailed_geolocation none
        (fun a => if a.name = ("ipapi.co").data then .resp 404 none
          else .resp 200 (some [])) (("8.8.8.8").data)).1
      = (dispatchNormalizer (("ipinfo.io").data) (("8.8.8.8").data)
          (("N/A").data) []).map ROut.record
    ∧ fetchNames (get_detailed_geolocation none
        (fun a => if a.name = ("ipapi.co").data then .resp 404 none
          else .resp 200 (some [])) (("8.8.8.8").data)).2
      = [("ipapi.co").data, ("ipinfo.io").data] := by
  have h := c1_first_success_wins none
    (fun a => if a.name = ("ipapi.co").data then .resp 404 none
      else .resp 200 (some [])) (("8.8.8.8").data) 1 [] (by decide)
    (by decide) (by intro k hk; interval_cases k; rfl) (by rfl)
  exact ⟨h.1, h.2.1.trans (by decide)⟩

/-! ## C7: every canonical field is populated -/

theorem strPopulated_pyGet (geo : RawResp) (key : List Char) (d : PyVal)
    (hd : d = .str ("Unknown").data ∨ d = .str ("N/A").data) :
    StrPopulated geo key (pyGet geo key d) := by
  cases h : pyGet? geo key with
  | some v => exact Or.inl (by simp [pyGet, h])
  | none =>
    rcases hd with hd | hd
    · exact Or.inr (Or.inl (by simp [pyGet, h, hd]))
    · exact Or.inr (Or.inr (by simp [pyGet, h, hd]))

theorem numDefault_pyGet (geo : RawResp) (key : List Char) :
    pyGet? geo key = some (pyGet geo key (.num ⟨0, 0⟩))
    ∨ pyGet geo key (.num ⟨0, 0⟩) = .num ⟨0, 0⟩ := by
  cases h : pyGet? geo key with
  | some v => exact Or.inl (by simp [pyGet, h])
  | none => exact Or.inr (by simp [pyGet, h])

/-- C7: for each of the three normalizers, every provider-derived string
field of the output record is populated — with the provider value under
the provider-specific key, or with the literal `"Unknown"` or `"N/A"` —
the fields a provider structurally cannot supply are hard-coded `"N/A"`
(isp/asn for ipinfo.io, asn for ip-api.com), and latitude/longitude are
the provider values or default to 0.0 when the provider omits them. -/
theorem c7_fields_populated (ip hs : List Char) (geo : RawResp) :
    (StrPopulated geo (("country_name").data)
        (_process_ipapi_response ip hs geo).country
      ∧ StrPopulated geo (("country_code").data)
        (_process_ipapi_response ip hs geo).country_code
      ∧ StrPopulated geo (("city").data)
        (_process_ipapi_response ip hs geo).city
      ∧ StrPopulated geo (("region").data)
        (_process_ipapi_response ip hs geo).region
      ∧ StrPopulated geo (("postal").data)
        (_process_ipapi_response ip hs geo).postal_code
      ∧ StrPopulated geo (("timezone").data)
        (_process_ipapi_response ip hs geo).timezone
      ∧ StrPopulated geo (("org").data)
        (_process_ipapi_response ip hs geo).organization
      ∧ StrPopulated geo (("isp").data)
        (_process_ipapi_response ip hs geo).isp
      ∧ StrPopulated geo (("asn").data)
        (_process_ipapi_response ip hs geo).asn
      ∧ (pyGet? geo (("latitude").data)
          = some (_process_ipapi_response ip hs geo).latitude
        ∨ (_process_ipapi_response ip hs geo).latitude = .num ⟨0, 0⟩)
      ∧ (pyGet? geo (("longitude").data)
          = some (_process_ipapi_response ip hs geo).longitude
        ∨ (_process_ipapi_response ip hs geo).longitude = .num ⟨0, 0⟩))
    ∧ (∀ lr, _process_ipinfo_response ip hs geo = .ok lr →
        StrPopulated geo (("country").data) lr.country
        ∧ StrPopulated geo (("country").data) lr.country_code
        ∧ StrPopulated geo (("city").data) lr.city
        ∧ StrPopulated geo (("region").data) lr.region
        ∧ StrPopulated geo (("postal").data) lr.postal_code
        ∧ StrPopulated geo (("timezone").data) lr.timezone
        ∧ StrPopulated geo (("org").data) lr.organization
        ∧ lr.isp = .str ("N/A").data
        ∧ lr.asn = .str ("N/A").data
        ∧ (pyGet? geo (("loc").data) = none →
            lr.latitude = .num ⟨0, 0⟩ ∧ lr.longitude = .num ⟨0, 0⟩))
    ∧ (StrPopulated geo (("country").data)
        (_process_ipapi_direct_response ip hs geo).country
      ∧ StrPopulated geo (("countryCode").data)
        (_process_ipapi_direct_response ip hs geo).country_code
      ∧ StrPopulated geo (("city").data)
        (_process_ipapi_direct_response ip hs geo).city
      ∧ StrPopulated geo (("regionName").data)
        (_process_ipapi_direct_response ip hs geo).region
      ∧ StrPopulated geo (("zip").data)
        (_process_ipapi_direct_response ip hs geo).postal_code
      ∧ StrPopulated geo (("timezone").data)
        (_process_ipapi_direct_response ip hs geo).timezone
      ∧ StrPopulated geo (("org").data)
        (_process_ipapi_direct_response ip hs geo).organization
      ∧ StrPopulated geo (("isp").data)
        (_process_ipapi_direct_response ip hs geo).isp
      ∧ (_process_ipapi_direct_response ip hs geo).asn = .str ("N/A").data
      ∧ (pyGet? geo (("lat").data)
          = some (_process_ipapi_direct_response ip hs geo).latitude
        ∨ (_process_ipapi_direct_response ip hs geo).latitude = .num ⟨0, 0⟩)
      ∧ (pyGet? geo (("lon").data)
          = some (_process_ipapi_direct_response ip hs geo).longitude
        ∨ (_process_ipapi_direct_response ip hs geo).longitude
          = .num ⟨0, 0⟩)) := by
  refine ⟨⟨?_, ?_, ?_, ?_, ?_, ?_, ?_, ?_, ?_, ?_, ?_⟩, ?_,
    ⟨?_, ?_, ?_, ?_, ?_, ?_, ?_, ?_, rfl, ?_, ?_⟩⟩
  · exact strPopulated_pyGet geo _ _ (Or.inl rfl)
  · exact strPopulated_pyGet geo _ _ (Or.inr rfl)
  · exact strPopulated_pyGet geo _ _ (Or.inl rfl)
  · exact strPopulated_pyGet geo _ _ (Or.inl rfl)
  · exact strPopulated_pyGet geo _ _ (Or.inr rfl)
  · exact strPopulated_pyGet geo _ _ (Or.inr rfl)
  · exact strPopulated_pyGet geo _ _ (Or.inl rfl)
  · exact strPopulated_pyGet geo _ _ (Or.inl rfl)
  · exact strPopulated_pyGet geo _ _ (Or.inl rfl)
  · exact numDefault_pyGet geo _
  · exact numDefault_pyGet geo _
  · intro lr hok
    refine ipinfo_ok_elim ip hs geo lr _ hok (fun la lo hEq => ?_)
    subst hEq
    refine ⟨strPopulated_pyGet geo _ _ (Or.inl rfl),
      strPopulated_pyGet geo _ _ (Or.inr rfl),
      strPopulated_pyGet geo _ _ (Or.inl rfl),
      strPopulated_pyGet geo _ _ (Or.inl rfl),
      strPopulated_pyGet geo _ _ (Or.inr rfl),
      strPopulated_pyGet geo _ _ (Or.inr rfl),
      strPopulated_pyGet geo _ _ (Or.inl rfl), rfl, rfl, ?_⟩
    intro hloc
    have h2 := ipinfo_loc_missing ip hs geo hloc
    rw [hok] at h2
    simp only [Except.ok.injEq, LocationRecord.mk.injEq] at h2
    obtain ⟨-, -, -, -, -, -, -, h8, h9, -⟩ := h2
    exact ⟨h8, h9⟩
  · exact strPopulated_pyGet geo _ _ (Or.inl rfl)
  · exact strPopulated_pyGet geo _ _ (Or.inr rfl)
  · exact strPopulated_pyGet geo _ _ (Or.inl rfl)
  · exact strPopulated_pyGet geo _ _ (Or.inl rfl)
  · exact strPopulated_pyGet geo _ _ (Or.inr rfl)
  · exact strPopulated_pyGet geo _ _ (Or.inr rfl)
  · exact strPopulated_pyGet geo _ _ (Or.inl rfl)
  · exact strPopulated_pyGet geo _ _ (Or.inl rfl)
  · exact numDefault_pyGet geo _
  · exact numDefault_pyGet geo _

/-- Witness for `c7_fields_populated` at an empty raw response. -/
theorem c7_fields_populated_witness :
    StrPopulated [] (("country_name").data)
      (_process_ipapi_response (("1.2.3.4").data) (("h").data) []).country
    ∧ (sampleIpinfoRec []).isp = .str ("N/A").data
    ∧ (_process_ipapi_direct_response (("1.2.3.4").data) (("h").data) []).asn
      = .str ("N/A").data := by
  have h := c7_fields_populated (("1.2.3.4").data) (("h").data) []
  have h7 := c7_fields_populated (("1.2.3.4").data) (("host").data) []
  refine ⟨h.1.1, ?_, ?_⟩
  · obtain ⟨-, -, -, -, -, -, -, hisp, -, -⟩ :=
      h7.2.1 (sampleIpinfoRec []) (by decide)
    exact hisp
  · obtain ⟨-, -, -, -, -, -, -, -, hasn, -, -⟩ := h.2.2
    exact hasn

/-! ## C8: the address validator, IPv4 side -/

theorem digitVal_le (c : Char) (v : Nat) (h : digitVal c = some v) :
    v ≤ 9 := by
  unfold digitVal at h
  split at h <;> first | (injection h with h; omega) | cases h

theorem digitCh_digitVal (c : Char) (v : Nat) (h : digitVal c = some v) :
    digitCh v = c := by
  unfold digitVal at h
  split at h <;> first | (injection h with h; subst h; rfl) | cases h

theorem digitVal_digitCh (v : Nat) (h : v ≤ 9) :
    digitVal (digitCh v) = some v := by
  interval_cases v <;> rfl

theorem isDigitCh_digitCh (v : Nat) (h : v ≤ 9) :
    isDigitCh (digitCh v) = true := by
  simp [isDigitCh, digitVal_digitCh v h]

theorem digitsVal_append (xs : List Char) (c : Char) :
    digitsVal (xs ++ [c]) = 10 * digitsVal xs + (digitVal c).getD 0 := by
  unfold digitsVal
  rw [List.foldl_append]
  rfl

theorem natStr_ne_nil (n : Nat) : natStr n ≠ [] := by
  rw [natStr_eq]
  split <;> simp

theorem natStr_all_digits (n : Nat) :
    ∀ c ∈ natStr n, isDigitCh c = true := by
  induction n using Nat.strong_induction_on with
  | _ n ih =>
    rw [natStr_eq]
    split
    · rename_i h10
      intro c hc
      rw [List.mem_singleton.mp hc]
      exact isDigitCh_digitCh n (by omega)
    · rename_i h10
      intro c hc
      rcases List.mem_append.mp hc with h | h
      · exact ih (n / 10) (Nat.div_lt_self (by omega) (by omega)) c h
      · rw [List.mem_singleton.mp h]
        exact isDigitCh_digitCh (n % 10) (by omega)

theorem natStr_head_ne_zero (n : Nat) (hn : 1 ≤ n) :
    (natStr n).headD ' ' ≠ '0' := by
  induction n using Nat.strong_induction_on with
  | _ n ih =>
    rw [natStr_eq]
    split
    · rename_i h10
      interval_cases n <;> decide
    · rename_i h10
      cases hh : natStr (n / 10) with
      | nil => exact absurd hh (natStr_ne_nil (n / 10))
      | cons a as =>
        have hd := ih (n / 10) (Nat.div_lt_self (by omega) (by omega))
          (by omega)
        rw [hh] at hd
        simpa using hd

theorem digitsVal_natStr (n : Nat) : digitsVal (natStr n) = n := by
  induction n using Nat.strong_induction_on with
  | _ n ih =>
    rw [natStr_eq]
    split
    · rename_i h10
      simp [digitsVal, digitVal_digitCh n (by omega)]
    · rename_i h10
      rw [digitsVal_append, ih (n / 10) (Nat.div_lt_self (by omega) (by omega)),
        digitVal_digitCh (n % 10) (by omega)]
      simp
      omega

theorem natStr_length_le : ∀ k n, 1 ≤ k → n < 10 ^ k →
    (natStr n).length ≤ k := by
  intro k
  induction k with
  | zero => omega
  | succ k ihk =>
    intro n hk hn
    rw [natStr_eq]
    split
    · simp
    · rename_i h10
      have hk1 : 1 ≤ k := by
        rcases Nat.eq_zero_or_pos k with h | h
        · subst h; simp at hn; omega
        · exact h
      have hdiv : n / 10 < 10 ^ k := by
        rw [Nat.div_lt_iff_lt_mul (by omega)]
        calc n < 10 ^ (k + 1) := hn
        _ = 10 ^ k * 10 := by rw [Nat.pow_succ]
      have := ihk (n / 10) hk1 hdiv
      simp only [List.length_append, List.length_singleton]
      omega

theorem natStr_digitsVal (o : List Char) (h1 : o ≠ [])
    (h2 : ∀ c ∈ o, isDigitCh c = true)
    (h3 : 1 < o.length → o.headD ' ' ≠ '0') :
    natStr (digitsVal o) = o := by
  induction o using List.reverseRecOn with
  | nil => exact absurd rfl h1
  | append_singleton ys c ihy =>
    have hc : isDigitCh c = true := h2 c (by simp)
    obtain ⟨vc, hvc⟩ := Option.isSome_iff_exists.mp (by simpa [isDigitCh] using hc)
    by_cases hy : ys = []
    · subst hy
      have hval : digitsVal ([] ++ [c]) = vc := by simp [digitsVal, hvc]
      rw [hval, natStr_eq, if_pos (by have := digitVal_le c vc hvc; omega),
        digitCh_digitVal c vc hvc]
      simp
    · have hyd : ∀ x ∈ ys, isDigitCh x = true :=
        fun x hx => h2 x (by simp [hx])
      have hyl : 0 < ys.length := List.length_pos.mpr hy
      have hohead : (ys ++ [c]).headD ' ' = ys.headD ' ' := by
        cases ys with
        | nil => exact absurd rfl hy
        | cons a as => simp
      have hyh : 1 < ys.length → ys.headD ' ' ≠ '0' := by
        intro hl
        have := h3 (by simp; omega)
        rwa [hohead] at this
      have ihy2 := ihy hy hyd hyh
      have hpos : 1 ≤ digitsVal ys := by
        by_contra h0
        have hz : digitsVal ys = 0 := by omega
        rw [hz] at ihy2
        have hys0 : ys = ['0'] := by rw [← ihy2]; rfl
        have := h3 (by simp [hys0])
        rw [hohead, hys0] at this
        simp at this
      have hvc9 : vc ≤ 9 := digitVal_le c vc hvc
      rw [digitsVal_append, hvc]
      simp only [Option.getD_some]
      rw [natStr_eq, if_neg (by omega)]
      have hdiv : (10 * digitsVal ys + vc) / 10 = digitsVal ys := by omega
      have hmod : (10 * digitsVal ys + vc) % 10 = vc := by omega
      rw [hdiv, hmod, ihy2, digitCh_digitVal c vc hvc]

theorem parse_octet_some_iff (o : List Char) (a : Nat) :
    parse_octet? o = some a ↔ a ≤ 255 ∧ o = natStr a := by
  constructor
  · intro h
    unfold parse_octet? at h
    split at h
    · cases h
    split at h
    · cases h
    split at h
    · cases h
    split at h
    · cases h
    split at h
    · cases h
    rename_i h1 h2 h3 h4 h5
    injection h with h
    have hne : o ≠ [] := by
      intro he
      exact h1 (by simp [he])
    have hdig : ∀ c ∈ o, isDigitCh c = true := by
      have : o.all isDigitCh = true := by
        by_contra hno
        exact h2 (by simp [Bool.eq_false_iff.mpr hno])
      simpa [List.all_eq_true] using this
    have hhead : 1 < o.length → o.headD ' ' ≠ '0' := by
      intro hl he
      rw [List.headD_eq_head?] at he
      exact h4 (by simp [hl, he])
    have hcan := natStr_digitsVal o hne hdig hhead
    rw [h] at hcan
    exact ⟨by omega, hcan.symm⟩
  · rintro ⟨ha, rfl⟩
    unfold parse_octet?
    rw [if_neg (by simp [natStr_ne_nil a]),
      if_neg (by simp [List.all_eq_true.mpr (natStr_all_digits a)]),
      if_neg (by have := natStr_length_le 3 a (by omega) (by omega); omega),
      if_neg ?_, if_neg (by rw [digitsVal_natStr]; omega),
      digitsVal_natStr]
    by_cases h10 : a < 10
    · have hlen : (natStr a).length = 1 := by
        rw [natStr_eq, if_pos h10]
        rfl
      simp [hlen]
    · have := natStr_head_ne_zero a (by omega)
      rw [List.headD_eq_head?] at this
      simp [this]

theorem natStr_no_dot (n : Nat) : '.' ∉ natStr n := by
  intro h
  exact absurd (natStr_all_digits n '.' h) (by decide)

theorem natStr_no_colon (n : Nat) : ':' ∉ natStr n := by
  intro h
  exact absurd (natStr_all_digits n ':' h) (by decide)

theorem ipv4_octets_spec (s : List Char) (v : List Nat)
    (h : ipv4_octets? s = some v) : SpecIPv4 s := by
  unfold ipv4_octets? at h
  dsimp only [] at h
  split at h
  · cases h
  rename_i hlen
  rw [Decidable.not_not] at hlen
  cases hsp : splitCh '.' s with
  | nil => rw [hsp] at hlen; cases hlen
  | cons o1 t1 =>
    cases t1 with
    | nil => rw [hsp] at hlen; simp at hlen
    | cons o2 t2 =>
      cases t2 with
      | nil => rw [hsp] at hlen; simp at hlen
      | cons o3 t3 =>
        cases t3 with
        | nil => rw [hsp] at hlen; simp at hlen
        | cons o4 t4 =>
          cases t4 with
          | cons o5 t5 => rw [hsp] at hlen; simp at hlen
          | nil =>
            rw [hsp] at h
            cases hp1 : parse_octet? o1 with
            | none => simp [mapMOpt, hp1] at h
            | some a1 =>
            cases hp2 : parse_octet? o2 with
            | none => simp [mapMOpt, hp1, hp2] at h
            | some a2 =>
            cases hp3 : parse_octet? o3 with
            | none => simp [mapMOpt, hp1, hp2, hp3] at h
            | some a3 =>
            cases hp4 : parse_octet? o4 with
            | none => simp [mapMOpt, hp1, hp2, hp3, hp4] at h
            | some a4 =>
            obtain ⟨ha1, ho1⟩ := (parse_octet_some_iff o1 a1).mp hp1
            obtain ⟨ha2, ho2⟩ := (parse_octet_some_iff o2 a2).mp hp2
            obtain ⟨ha3, ho3⟩ := (parse_octet_some_iff o3 a3).mp hp3
            obtain ⟨ha4, ho4⟩ := (parse_octet_some_iff o4 a4).mp hp4
            refine ⟨a1, a2, a3, a4, ha1, ha2, ha3, ha4, ?_⟩
            rw [← joinCh_splitCh '.' s, hsp, ho1, ho2, ho3, ho4]
            simp [joinCh]

theorem spec_ipv4_octets (s : List Char) (h : SpecIPv4 s) :
    ∃ a b c d, ipv4_octets? s = some [a, b, c, d] := by
  obtain ⟨a, b, c, d, ha, hb, hc, hd, hs⟩ := h
  subst hs
  have hfree : ∀ p ∈ [natStr a, natStr b, natStr c, natStr d],
      '.' ∉ p := by
    intro p hp
    simp only [List.mem_cons, List.not_mem_nil, or_false] at hp
    rcases hp with h | h | h | h
    all_goals (subst h; exact natStr_no_dot _)
  have hsp := splitCh_joinCh '.' [natStr a, natStr b, natStr c, natStr d]
    (by simp) hfree
  have hj : joinCh '.' [natStr a, natStr b, natStr c, natStr d]
      = natStr a ++ '.' :: natStr b ++ '.' :: natStr c ++ '.' :: natStr d := by
    simp [joinCh]
  rw [hj] at hsp
  refine ⟨a, b, c, d, ?_⟩
  unfold ipv4_octets?
  dsimp only []
  rw [hsp]
  rw [if_neg (by simp)]
  simp [mapMOpt, (parse_octet_some_iff (natStr a) a).mpr ⟨ha, rfl⟩,
    (parse_octet_some_iff (natStr b) b).mpr ⟨hb, rfl⟩,
    (parse_octet_some_iff (natStr c) c).mpr ⟨hc, rfl⟩,
    (parse_octet_some_iff (natStr d) d).mpr ⟨hd, rfl⟩]

theorem parse_hextet_isSome_iff (g : List Char) :
    (parse_hextet? g).isSome = true ↔ HexGroup g := by
  unfold parse_hextet? HexGroup
  by_cases hhex : g.all isHexCh
  · by_cases hlen : 1 ≤ g.length ∧ g.length ≤ 4
    · rw [if_pos hhex, if_pos hlen]
      simp only [Option.isSome_some, true_iff]
      exact ⟨hlen.1, hlen.2, fun c hc => List.all_eq_true.mp hhex c hc⟩
    · rw [if_pos hhex, if_neg hlen]
      simp only [Option.isSome_none, Bool.false_eq_true, false_iff]
      rintro ⟨h1, h2, -⟩
      exact hlen ⟨h1, h2⟩
  · rw [if_neg hhex]
    simp only [Option.isSome_none, Bool.false_eq_true, false_iff]
    rintro ⟨-, -, h3⟩
    exact hhex (List.all_eq_true.mpr h3)

theorem hexGroup_ne_nil (g : List Char) (h : HexGroup g) : g ≠ [] := by
  intro he
  subst he
  simpa using h.1

theorem hexGroup_no_colon (g : List Char) (h : HexGroup g) : ':' ∉ g := by
  intro hc
  exact absurd (h.2.2 ':' hc) (by decide)

theorem hexGroup_no_dot (g : List Char) (h : HexGroup g) : '.' ∉ g := by
  intro hc
  exact absurd (h.2.2 '.' hc) (by decide)

theorem hexGroup_not_empty (g : List Char) (h : HexGroup g) :
    g.isEmpty = false := by
  cases g with
  | nil => exact absurd rfl (hexGroup_ne_nil [] h)
  | cons a as => rfl

theorem mapMOpt_isSome_iff (f : α → Option β) (l : List α) :
    (mapMOpt f l).isSome = true ↔ ∀ a ∈ l, (f a).isSome = true := by
  induction l with
  | nil => simp [mapMOpt]
  | cons a l ih =>
    constructor
    · intro h b hb
      unfold mapMOpt at h
      rcases List.mem_cons.mp hb with hb | hb
      · subst hb
        cases hfa : f b with
        | none => rw [hfa] at h; simp at h
        | some v => simp
      · cases hfa : f a with
        | none => rw [hfa] at h; simp at h
        | some v =>
          rw [hfa] at h
          cases hml : mapMOpt f l with
          | none => rw [hml] at h; simp at h
          | some vs => exact ih.mp (by simp [hml]) b hb
    · intro h
      unfold mapMOpt
      cases hfa : f a with
      | none =>
        have := h a (by simp)
        rw [hfa] at this
        cases this
      | some v =>
        cases hml : mapMOpt f l with
        | none =>
          have := ih.mpr (fun b hb => h b (by simp [hb]))
          rw [hml] at this
          cases this
        | some vs => rfl

theorem mem_internalEmpties (parts : List V6Chunk) (i : Nat) :
    i ∈ internalEmpties parts ↔
      1 ≤ i ∧ i + 1 < parts.length
        ∧ chunkIsEmpty (parts.getD i (V6Chunk.raw [])) = true := by
  unfold internalEmpties
  rw [List.mem_filter, List.mem_range]
  constructor
  · rintro ⟨hr, hc⟩
    simp only [Bool.and_eq_true, decide_eq_true_eq] at hc
    exact ⟨hc.1.1, hc.1.2, hc.2⟩
  · rintro ⟨h1, h2, h3⟩
    exact ⟨by omega, by rw [h3]; simp [h1, h2]⟩

theorem internalEmpties_nodup (parts : List V6Chunk) :
    (internalEmpties parts).Nodup :=
  (List.nodup_range _).filter _

theorem internalEmpties_eq_nil_iff (parts : List V6Chunk) :
    internalEmpties parts = [] ↔
      ∀ i, 1 ≤ i → i + 1 < parts.length →
        chunkIsEmpty (parts.getD i (V6Chunk.raw [])) = false := by
  rw [List.eq_nil_iff_forall_not_mem]
  constructor
  · intro h i h1 h2
    by_contra hc
    exact h i ((mem_internalEmpties parts i).mpr
      ⟨h1, h2, by simpa using hc⟩)
  · intro h i hi
    obtain ⟨h1, h2, h3⟩ := (mem_internalEmpties parts i).mp hi
    rw [h i h1 h2] at h3
    cases h3

theorem nodup_eq_singleton (l : List Nat) (i : Nat) (hn : l.Nodup)
    (hi : i ∈ l) (hall : ∀ j ∈ l, j = i) : l = [i] := by
  cases l with
  | nil => cases hi
  | cons x xs =>
    have hx : x = i := hall x (by simp)
    subst hx
    cases xs with
    | nil => rfl
    | cons y ys =>
      have hy : y = x := hall y (by simp)
      subst hy
      simp at hn

theorem internalEmpties_eq_single_iff (parts : List V6Chunk) (i : Nat) :
    internalEmpties parts = [i] ↔
      (1 ≤ i ∧ i + 1 < parts.length
        ∧ chunkIsEmpty (parts.getD i (V6Chunk.raw [])) = true)
      ∧ ∀ j, 1 ≤ j → j + 1 < parts.length →
          chunkIsEmpty (parts.getD j (V6Chunk.raw [])) = true → j = i := by
  constructor
  · intro h
    constructor
    · exact (mem_internalEmpties parts i).mp (by rw [h]; simp)
    · intro j h1 h2 h3
      have : j ∈ internalEmpties parts :=
        (mem_internalEmpties parts j).mpr ⟨h1, h2, h3⟩
      rw [h] at this
      simpa using this
  · rintro ⟨⟨h1, h2, h3⟩, hall⟩
    refine nodup_eq_singleton _ i (internalEmpties_nodup parts)
      ((mem_internalEmpties parts i).mpr ⟨h1, h2, h3⟩) ?_
    intro j hj
    obtain ⟨j1, j2, j3⟩ := (mem_internalEmpties parts j).mp hj
    exact hall j j1 j2 j3

theorem getD_map_raw (parts : List (List Char)) (i : Nat)
    (hi : i < parts.length) :
    (parts.map V6Chunk.raw).getD i (V6Chunk.raw [])
      = V6Chunk.raw (parts.getD i []) := by
  rw [List.getD_eq_getElem _ _ (by simpa using hi),
    List.getD_eq_getElem _ _ hi, List.getElem_map]

theorem joinCh_cons_ne (sep : Char) (a : List Char)
    (T : List (List Char)) (hT : T ≠ []) :
    joinCh sep (a :: T) = a ++ sep :: joinCh sep T := by
  cases T with
  | nil => exact absurd rfl hT
  | cons t ts => rfl

theorem joinCh_append_of_ne_nil (sep : Char) :
    ∀ (A B : List (List Char)), A ≠ [] → B ≠ [] →
    joinCh sep (A ++ B) = joinCh sep A ++ sep :: joinCh sep B := by
  intro A
  induction A with
  | nil => intro B hA; exact absurd rfl hA
  | cons a A ih =>
    intro B hA hB
    cases A with
    | nil =>
      rw [List.cons_append, List.nil_append, joinCh_cons_ne sep a B hB]
      rfl
    | cons a2 A2 =>
      rw [List.cons_append,
        joinCh_cons_ne sep a ((a2 :: A2) ++ B) (by simp),
        ih B (by simp) hB,
        joinCh_cons_ne sep a (a2 :: A2) (by simp)]
      simp

theorem splitCh_join_sep (sep : Char) :
    ∀ (pre : List (List Char)) (t : List Char), pre ≠ [] →
    (∀ p ∈ pre, sep ∉ p) →
    splitCh sep (joinCh sep pre ++ sep :: t) = pre ++ splitCh sep t := by
  intro pre
  induction pre with
  | nil => intro t h; exact absurd rfl h
  | cons p pres ih =>
    intro t hne hfree
    cases pres with
    | nil =>
      have hsp : splitCh sep (sep :: t) = [] :: splitCh sep t := by
        simp [splitCh]
      have := splitCh_append sep p (sep :: t) (hfree p (by simp))
        [] (splitCh sep t) hsp
      simpa [joinCh] using this
    | cons q qs =>
      have hih := ih t (by simp) (fun r hr => hfree r (by simp [hr]))
      have hshape : joinCh sep (p :: q :: qs) ++ sep :: t
          = p ++ sep :: (joinCh sep (q :: qs) ++ sep :: t) := by
        simp [joinCh]
      rw [hshape]
      have hsp : splitCh sep (sep :: (joinCh sep (q :: qs) ++ sep :: t))
          = [] :: ((q :: qs) ++ splitCh sep t) := by
        simp [splitCh, hih]
      have := splitCh_append sep p
        (sep :: (joinCh sep (q :: qs) ++ sep :: t))
        (hfree p (by simp)) [] ((q :: qs) ++ splitCh sep t) hsp
      simpa using this

theorem specIPv4_props (s : List Char) (h : SpecIPv4 s) :
    s ≠ [] ∧ ':' ∉ s ∧ '.' ∈ s := by
  obtain ⟨a, b, c, d, ha, hb, hc, hd, hs⟩ := h
  subst hs
  refine ⟨?_, ?_, ?_⟩
  · intro he
    simp [List.append_eq_nil] at he
  · intro hmem
    rcases List.mem_append.mp hmem with h | h
    · rcases List.mem_append.mp h with h | h
      · rcases List.mem_append.mp h with h | h
        · exact natStr_no_colon a h
        · rcases List.mem_cons.mp h with h | h
          · exact absurd h (by decide)
          · exact natStr_no_colon b h
      · rcases List.mem_cons.mp h with h | h
        · exact absurd h (by decide)
        · exact natStr_no_colon c h
    · rcases List.mem_cons.mp h with h | h
      · exact absurd h (by decide)
      · exact natStr_no_colon d h
  · simp

theorem getD_mem {α : Type} (l : List α) (i : Nat) (d : α)
    (h : i < l.length) : l.getD i d ∈ l := by
  rw [List.getD_eq_getElem _ _ h]
  exact List.getElem_mem h

theorem embedIPv4_concat_no_dot (init : List (List Char))
    (last : List Char) (hdot : '.' ∉ last) :
    embedIPv4 (init ++ [last])
      = some ((init ++ [last]).map V6Chunk.raw) := by
  unfold embedIPv4
  rw [List.getLast?_concat]
  dsimp only []
  rw [show last.contains '.' = false from by
    simp [List.elem_eq_mem, hdot]]
  simp

theorem embedIPv4_of_forall_no_dot (parts : List (List Char))
    (hne : parts ≠ []) (hdot : ∀ p ∈ parts, '.' ∉ p) :
    embedIPv4 parts = some (parts.map V6Chunk.raw) := by
  rcases List.eq_nil_or_concat parts with h | ⟨init, last, h⟩
  · exact absurd h hne
  · rw [List.concat_eq_append] at h
    subst h
    exact embedIPv4_concat_no_dot init last (hdot last (by simp))

theorem embedIPv4_concat_dot (init : List (List Char)) (last : List Char)
    (hdot : '.' ∈ last) (a b c d : Nat)
    (hv4 : ipv4_octets? last = some [a, b, c, d]) :
    embedIPv4 (init ++ [last])
      = some (init.map V6Chunk.raw
          ++ [V6Chunk.emb (a * 256 + b), V6Chunk.emb (c * 256 + d)]) := by
  unfold embedIPv4
  rw [List.getLast?_concat]
  dsimp only []
  rw [show last.contains '.' = true from by
    simp [List.elem_eq_mem, hdot]]
  rw [if_pos rfl, hv4, List.dropLast_concat]

theorem mapMOpt_raw_iff (X : List (List Char)) :
    (mapMOpt chunkHextet? (X.map V6Chunk.raw)).isSome = true
      ↔ ∀ p ∈ X, HexGroup p := by
  rw [mapMOpt_isSome_iff]
  constructor
  · intro h p hp
    exact (parse_hextet_isSome_iff p).mp
      (h (V6Chunk.raw p) (List.mem_map_of_mem _ hp))
  · rintro h c hc
    obtain ⟨p, hp, rfl⟩ := List.mem_map.mp hc
    exact (parse_hextet_isSome_iff p).mpr (h p hp)

theorem chunks_ok_full (gs : List (List Char)) (hlen : gs.length = 8)
    (hg : ∀ g ∈ gs, HexGroup g) :
    ipv6_chunks_ok (gs.map V6Chunk.raw) = true := by
  unfold ipv6_chunks_ok
  rw [if_neg (by simp [hlen])]
  have hie : internalEmpties (gs.map V6Chunk.raw) = [] := by
    rw [internalEmpties_eq_nil_iff]
    intro i h1 h2
    rw [List.length_map] at h2
    rw [getD_map_raw gs i (by omega)]
    exact hexGroup_not_empty _ (hg _ (getD_mem gs i [] (by omega)))
  rw [hie]
  simp only [Bool.and_eq_true, beq_iff_eq]
  refine ⟨⟨⟨by simp [hlen], ?_⟩, ?_⟩, (mapMOpt_raw_iff gs).mpr hg⟩
  · rw [getD_map_raw gs 0 (by omega)]
    simp only [chunkIsEmpty, Bool.not_eq_true', List.isEmpty_eq_false]
    exact hexGroup_ne_nil _ (hg _ (getD_mem gs 0 [] (by omega)))
  · rw [List.length_map, hlen]
    rw [getD_map_raw gs 7 (by omega)]
    simp only [chunkIsEmpty, Bool.not_eq_true', List.isEmpty_eq_false]
    exact hexGroup_ne_nil _ (hg _ (getD_mem gs 7 [] (by omega)))

theorem spec_full_groups_ok (s : List Char) (gs : List (List Char))
    (hlen : gs.length = 8) (hg : ∀ g ∈ gs, HexGroup g)
    (hs : s = joinCh ':' gs) : ipv6_addr_ok s = true := by
  subst hs
  have hfree : ∀ p ∈ gs, ':' ∉ p := fun p hp => hexGroup_no_colon p (hg p hp)
  have hne : gs ≠ [] := by intro h; rw [h] at hlen; cases hlen
  have hsplit := splitCh_joinCh ':' gs hne hfree
  unfold ipv6_addr_ok
  dsimp only []
  rw [hsplit, if_neg (by omega),
    embedIPv4_of_forall_no_dot gs hne
      (fun p hp => hexGroup_no_dot p (hg p hp))]
  dsimp only []
  exact chunks_ok_full gs hlen hg

theorem chunks_ok_full_embedded (gs : List (List Char)) (x y : Nat)
    (hlen : gs.length = 6) (hg : ∀ g ∈ gs, HexGroup g) :
    ipv6_chunks_ok
      (gs.map V6Chunk.raw ++ [V6Chunk.emb x, V6Chunk.emb y]) = true := by
  have hclen :
      (gs.map V6Chunk.raw ++ [V6Chunk.emb x, V6Chunk.emb y]).length = 8 := by
    simp [hlen]
  unfold ipv6_chunks_ok
  rw [if_neg (by rw [hclen]; omega)]
  have hie : internalEmpties
      (gs.map V6Chunk.raw ++ [V6Chunk.emb x, V6Chunk.emb y]) = [] := by
    rw [internalEmpties_eq_nil_iff]
    intro i h1 h2
    rw [hclen] at h2
    by_cases hi6 : i < 6
    · rw [List.getD_append _ _ _ _ (by simp [hlen]; omega),
        getD_map_raw gs i (by omega)]
      simp only [chunkIsEmpty, List.isEmpty_eq_false]
      exact hexGroup_ne_nil _ (hg _ (getD_mem gs i [] (by omega)))
    · have hi : i = 6 := by omega
      subst hi
      rw [List.getD_append_right _ _ _ _ (by simp [hlen])]
      simp [hlen, chunkIsEmpty]
  rw [hie]
  simp only [Bool.and_eq_true, beq_iff_eq]
  refine ⟨⟨⟨hclen, ?_⟩, ?_⟩, ?_⟩
  · rw [List.getD_append _ _ _ _ (by simp [hlen]),
      getD_map_raw gs 0 (by omega)]
    simp only [chunkIsEmpty, Bool.not_eq_true', List.isEmpty_eq_false]
    exact hexGroup_ne_nil _ (hg _ (getD_mem gs 0 [] (by omega)))
  · rw [hclen]
    rw [List.getD_append_right _ _ _ _ (by simp [hlen])]
    simp [hlen, chunkIsEmpty]
  · rw [mapMOpt_isSome_iff]
    intro cn hc
    rcases List.mem_append.mp hc with h | h
    · obtain ⟨p, hp, rfl⟩ := List.mem_map.mp h
      exact (parse_hextet_isSome_iff p).mpr (hg p hp)
    · rcases List.mem_cons.mp h with h | h
      · subst h; rfl
      · rw [List.mem_singleton.mp h]; rfl

theorem spec_full_embedded_ok (s : List Char) (gs : List (List Char))
    (v4 : List Char) (hlen : gs.length = 6) (hg : ∀ g ∈ gs, HexGroup g)
    (hv4 : SpecIPv4 v4) (hs : s = joinCh ':' (gs ++ [v4])) :
    ipv6_addr_ok s = true := by
  subst hs
  obtain ⟨hv4ne, hv4nc, hv4dot⟩ := specIPv4_props v4 hv4
  obtain ⟨a, b, c, d, hoct⟩ := spec_ipv4_octets v4 hv4
  have hfree : ∀ p ∈ gs ++ [v4], ':' ∉ p := by
    intro p hp
    rcases List.mem_append.mp hp with h | h
    · exact hexGroup_no_colon p (hg p h)
    · rw [List.mem_singleton.mp h]; exact hv4nc
  have hne : gs ++ [v4] ≠ [] := by simp
  have hsplit := splitCh_joinCh ':' (gs ++ [v4]) hne hfree
  unfold ipv6_addr_ok
  dsimp only []
  rw [hsplit, if_neg (by simp [hlen]),
    embedIPv4_concat_dot gs v4 hv4dot a b c d hoct]
  dsimp only []
  exact chunks_ok_full_embedded gs _ _ hlen hg

theorem splitCh_compressed (pre post : List (List Char))
    (hpre : ∀ p ∈ pre, ':' ∉ p) (hpost : ∀ p ∈ post, ':' ∉ p) :
    splitCh ':' (joinCh ':' pre ++ ':' :: ':' :: joinCh ':' post)
      = (if pre = [] then [[]] else pre)
        ++ [] :: (if post = [] then [[]] else post) := by
  have hpost2 : splitCh ':' (':' :: joinCh ':' post)
      = [] :: (if post = [] then [[]] else post) := by
    by_cases hp : post = []
    · subst hp
      simp [joinCh, splitCh]
    · simp [splitCh, splitCh_joinCh ':' post hp hpost, hp]
  by_cases hpr : pre = []
  · subst hpr
    rw [if_pos rfl]
    show splitCh ':' (':' :: (':' :: joinCh ':' post)) = _
    rw [show splitCh ':' (':' :: (':' :: joinCh ':' post))
        = [] :: splitCh ':' (':' :: joinCh ':' post) from by
      simp [splitCh]]
    rw [hpost2]
    rfl
  · rw [if_neg hpr, splitCh_join_sep ':' pre (':' :: joinCh ':' post)
      hpr hpre, hpost2]



theorem ipv6_chunks_ok_of_gap (parts : List V6Chunk) (i hi lo : Nat)
    (hie : internalEmpties parts = [i])
    (h9 : ¬ 9 < parts.length)
    (hhi : hi = if chunkIsEmpty (parts.getD 0 (V6Chunk.raw []))
      then i - 1 else i)
    (hheadok : chunkIsEmpty (parts.getD 0 (V6Chunk.raw [])) = true →
      hi = 0)
    (hlo : lo = if chunkIsEmpty
        (parts.getD (parts.length - 1) (V6Chunk.raw []))
      then parts.length - i - 1 - 1 else parts.length - i - 1)
    (hlastok : chunkIsEmpty
        (parts.getD (parts.length - 1) (V6Chunk.raw [])) = true → lo = 0)
    (hsum : hi + lo < 8)
    (htake : (mapMOpt chunkHextet? (parts.take hi)).isSome = true)
    (hdrop : (mapMOpt chunkHextet?
      (parts.drop (parts.length - lo))).isSome = true) :
    ipv6_chunks_ok parts = true := by
  unfold ipv6_chunks_ok
  rw [if_neg h9, hie]
  dsimp only []
  cases hhd : chunkIsEmpty (parts.getD 0 (V6Chunk.raw [])) with
  | true =>
    have hhi0 : hi = 0 := hheadok hhd
    rw [hhd] at hhi
    simp only [if_true] at hhi
    cases hlst : chunkIsEmpty
        (parts.getD (parts.length - 1) (V6Chunk.raw [])) with
    | true =>
      have hlo0 : lo = 0 := hlastok hlst
      rw [hlst] at hlo
      simp only [if_true] at hlo
      simp only [eq_self_iff_true, if_true]
      rw [← hlo, ← hhi]
      rw [if_neg (by simp [hhi0]), if_neg (by simp [hlo0]),
        if_neg (by omega), htake, hdrop]
      rfl
    | false =>
      rw [hlst] at hlo
      simp only [Bool.false_eq_true, if_false] at hlo
      simp only [eq_self_iff_true, if_true, Bool.false_eq_true, if_false]
      rw [← hlo, ← hhi]
      rw [if_neg (by simp [hhi0]), if_neg (by simp),
        if_neg (by omega), htake, hdrop]
      rfl
  | false =>
    rw [hhd] at hhi
    simp only [Bool.false_eq_true, if_false] at hhi
    cases hlst : chunkIsEmpty
        (parts.getD (parts.length - 1) (V6Chunk.raw [])) with
    | true =>
      have hlo0 : lo = 0 := hlastok hlst
      rw [hlst] at hlo
      simp only [if_true] at hlo
      simp only [eq_self_iff_true, if_true, Bool.false_eq_true, if_false]
      rw [← hlo, ← hhi]
      rw [if_neg (by simp), if_neg (by simp [hlo0]),
        if_neg (by omega), htake, hdrop]
      rfl
    | false =>
      rw [hlst] at hlo
      simp only [Bool.false_eq_true, if_false] at hlo
      simp only [Bool.false_eq_true, if_false]
      rw [← hlo, ← hhi]
      rw [if_neg (by simp), if_neg (by simp),
        if_neg (by omega), htake, hdrop]
      rfl

theorem chunks_ok_gap_live (pre : List (List Char)) (B : List V6Chunk)
    (hgpre : ∀ g ∈ pre, HexGroup g) (hBne : B ≠ [])
    (hBnonempty : ∀ cn ∈ B, chunkIsEmpty cn = false)
    (hBparse : (mapMOpt chunkHextet? B).isSome = true)
    (hcount : pre.length + B.length ≤ 7) :
    ipv6_chunks_ok
      ((if pre = [] then [V6Chunk.raw []] else pre.map V6Chunk.raw)
        ++ V6Chunk.raw [] :: B) = true := by
  have hBlen : 1 ≤ B.length := by
    cases B with
    | nil => exact absurd rfl hBne
    | cons b bs => simp
  by_cases hpre : pre = []
  · subst hpre
    rw [if_pos rfl]
    rw [show ([V6Chunk.raw []] ++ V6Chunk.raw [] :: B)
        = V6Chunk.raw [] :: V6Chunk.raw [] :: B from rfl]
    have hlen : (V6Chunk.raw [] :: V6Chunk.raw [] :: B).length
        = B.length + 2 := by simp
    have hie : internalEmpties (V6Chunk.raw [] :: V6Chunk.raw [] :: B)
        = [1] := by
      rw [internalEmpties_eq_single_iff]
      refine ⟨⟨by omega, by simp; omega, rfl⟩, ?_⟩
      intro j h1 h2 h3
      rw [hlen] at h2
      by_contra hne1
      obtain ⟨j2, rfl⟩ : ∃ j2, j = j2 + 2 := ⟨j - 2, by omega⟩
      rw [List.getD_cons_succ, List.getD_cons_succ] at h3
      have hne2 : chunkIsEmpty (B.getD j2 (V6Chunk.raw [])) = false :=
        hBnonempty _ (getD_mem B j2 (V6Chunk.raw []) (by omega))
      have h3b : chunkIsEmpty (B.getD j2 (V6Chunk.raw [])) = true := h3
      rw [hne2] at h3b
      simp at h3b
    have hlast : chunkIsEmpty ((V6Chunk.raw [] :: V6Chunk.raw [] :: B).getD
        ((V6Chunk.raw [] :: V6Chunk.raw [] :: B).length - 1)
        (V6Chunk.raw [])) = false := by
      rw [hlen, show B.length + 2 - 1 = (B.length - 1) + 1 + 1 from by omega,
        List.getD_cons_succ, List.getD_cons_succ]
      exact hBnonempty _ (getD_mem B (B.length - 1) _ (by omega))
    refine ipv6_chunks_ok_of_gap _ 1 0 B.length hie
      (by rw [hlen]; omega) (by simp [chunkIsEmpty]) (fun _ => rfl)
      (by rw [hlast]
          simp only [Bool.false_eq_true, if_false]
          rw [hlen]
          omega)
      (by intro h; rw [h] at hlast; simp at hlast)
      (by omega) rfl ?_
    rw [hlen, show B.length + 2 - B.length = 2 from by omega]
    exact hBparse
  · rw [if_neg hpre]
    have hplen : 1 ≤ pre.length := by
      cases pre with
      | nil => exact absurd rfl hpre
      | cons p ps => simp
    have hlen : (pre.map V6Chunk.raw ++ V6Chunk.raw [] :: B).length
        = pre.length + 1 + B.length := by simp; omega
    have hie : internalEmpties (pre.map V6Chunk.raw ++ V6Chunk.raw [] :: B)
        = [pre.length] := by
      rw [internalEmpties_eq_single_iff]
      refine ⟨⟨by omega, by rw [hlen]; omega, ?_⟩, ?_⟩
      · rw [List.getD_append_right _ _ _ _ (by simp)]
        rw [show pre.length - (pre.map V6Chunk.raw).length = 0 from by simp]
        rfl
      · intro j h1 h2 h3
        rw [hlen] at h2
        by_contra hne1
        by_cases hj : j < pre.length
        · rw [List.getD_append _ _ _ _ (by simp [hj]),
            getD_map_raw pre j hj] at h3
          simp only [chunkIsEmpty, List.isEmpty_eq_true] at h3
          exact hexGroup_ne_nil _ (hgpre _ (getD_mem pre j [] hj)) h3
        · obtain ⟨j2, rfl⟩ : ∃ j2, j = pre.length + 1 + j2 :=
            ⟨j - pre.length - 1, by omega⟩
          rw [List.getD_append_right _ _ _ _ (by simp; omega)] at h3
          rw [show pre.length + 1 + j2 - (pre.map V6Chunk.raw).length
              = j2 + 1 from by simp only [List.length_map]; omega,
            List.getD_cons_succ] at h3
          have hne2 : chunkIsEmpty (B.getD j2 (V6Chunk.raw [])) = false :=
            hBnonempty _ (getD_mem B j2 (V6Chunk.raw []) (by omega))
          have h3b : chunkIsEmpty (B.getD j2 (V6Chunk.raw [])) = true := h3
          rw [hne2] at h3b
          simp at h3b
    have hhead : chunkIsEmpty ((pre.map V6Chunk.raw
        ++ V6Chunk.raw [] :: B).getD 0 (V6Chunk.raw [])) = false := by
      rw [List.getD_append _ _ _ _ (by simp; omega),
        getD_map_raw pre 0 (by omega)]
      simp only [chunkIsEmpty, List.isEmpty_eq_false]
      exact hexGroup_ne_nil _ (hgpre _ (getD_mem pre 0 [] (by omega)))
    have hlast : chunkIsEmpty ((pre.map V6Chunk.raw
        ++ V6Chunk.raw [] :: B).getD
        ((pre.map V6Chunk.raw ++ V6Chunk.raw [] :: B).length - 1)
        (V6Chunk.raw [])) = false := by
      rw [hlen, List.getD_append_right _ _ _ _
          (by simp only [List.length_map]; omega),
        show pre.length + 1 + B.length - 1 - (pre.map V6Chunk.raw).length
          = (B.length - 1) + 1 from by simp only [List.length_map]; omega,
        List.getD_cons_succ]
      exact hBnonempty _ (getD_mem B (B.length - 1) _ (by omega))
    have htake : (mapMOpt chunkHextet? ((pre.map V6Chunk.raw
        ++ V6Chunk.raw [] :: B).take pre.length)).isSome = true := by
      rw [show pre.length = (pre.map V6Chunk.raw).length from by simp,
        List.take_left _ _]
      exact (mapMOpt_raw_iff pre).mpr hgpre
    refine ipv6_chunks_ok_of_gap _ pre.length pre.length B.length hie
      (by rw [hlen]; omega)
      (by rw [hhead]; simp only [Bool.false_eq_true, if_false])
      (by intro h; rw [h] at hhead; simp at hhead)
      (by rw [hlast]
          simp only [Bool.false_eq_true, if_false]
          rw [hlen]
          omega)
      (by intro h; rw [h] at hlast; simp at hlast)
      (by omega) htake ?_
    rw [hlen, show pre.length + 1 + B.length - B.length
        = pre.length + 1 from by omega]
    rw [show pre.map V6Chunk.raw ++ V6Chunk.raw [] :: B
        = (pre.map V6Chunk.raw ++ [V6Chunk.raw []]) ++ B from by simp,
      List.drop_left' (by simp)]
    exact hBparse

theorem chunks_ok_gap_trailing (pre : List (List Char))
    (hgpre : ∀ g ∈ pre, HexGroup g) (hcount : pre.length ≤ 7) :
    ipv6_chunks_ok
      ((if pre = [] then [V6Chunk.raw []] else pre.map V6Chunk.raw)
        ++ V6Chunk.raw [] :: [V6Chunk.raw []]) = true := by
  by_cases hpre : pre = []
  · subst hpre
    rw [if_pos rfl]
    rw [show ([V6Chunk.raw []] ++ V6Chunk.raw [] :: [V6Chunk.raw []])
        = [V6Chunk.raw [], V6Chunk.raw [], V6Chunk.raw []] from rfl]
    have hie : internalEmpties
        [V6Chunk.raw [], V6Chunk.raw [], V6Chunk.raw []] = [1] := by
      rw [internalEmpties_eq_single_iff]
      refine ⟨⟨by omega, by simp, rfl⟩, ?_⟩
      intro j h1 h2 h3
      simp at h2
      omega
    exact ipv6_chunks_ok_of_gap _ 1 0 0 hie (by simp)
      (by simp [chunkIsEmpty]) (fun _ => rfl) (by simp [chunkIsEmpty])
      (fun _ => rfl) (by omega) rfl rfl
  · rw [if_neg hpre]
    have hplen : 1 ≤ pre.length := by
      cases pre with
      | nil => exact absurd rfl hpre
      | cons p ps => simp
    have hlen : (pre.map V6Chunk.raw
        ++ V6Chunk.raw [] :: [V6Chunk.raw []]).length
        = pre.length + 2 := by simp
    have hie : internalEmpties
        (pre.map V6Chunk.raw ++ V6Chunk.raw [] :: [V6Chunk.raw []])
        = [pre.length] := by
      rw [internalEmpties_eq_single_iff]
      refine ⟨⟨by omega, by rw [hlen]; omega, ?_⟩, ?_⟩
      · rw [List.getD_append_right _ _ _ _ (by simp)]
        rw [show pre.length - (pre.map V6Chunk.raw).length = 0 from by simp]
        rfl
      · intro j h1 h2 h3
        rw [hlen] at h2
        by_contra hne1
        have hj : j < pre.length := by omega
        rw [List.getD_append _ _ _ _ (by simp [hj]),
          getD_map_raw pre j hj] at h3
        simp only [chunkIsEmpty, List.isEmpty_eq_true] at h3
        exact hexGroup_ne_nil _ (hgpre _ (getD_mem pre j [] hj)) h3
    have hhead : chunkIsEmpty ((pre.map V6Chunk.raw
        ++ V6Chunk.raw [] :: [V6Chunk.raw []]).getD 0 (V6Chunk.raw []))
        = false := by
      rw [List.getD_append _ _ _ _ (by simp; omega),
        getD_map_raw pre 0 (by omega)]
      simp only [chunkIsEmpty, List.isEmpty_eq_false]
      exact hexGroup_ne_nil _ (hgpre _ (getD_mem pre 0 [] (by omega)))
    have hlast : chunkIsEmpty ((pre.map V6Chunk.raw
        ++ V6Chunk.raw [] :: [V6Chunk.raw []]).getD
        ((pre.map V6Chunk.raw
          ++ V6Chunk.raw [] :: [V6Chunk.raw []]).length - 1)
        (V6Chunk.raw [])) = true := by
      rw [hlen, List.getD_append_right _ _ _ _
          (by simp only [List.length_map]; omega),
        show pre.length + 2 - 1 - (pre.map V6Chunk.raw).length
          = 1 from by simp only [List.length_map]; omega,
        List.getD_cons_succ]
      rfl
    have htake : (mapMOpt chunkHextet? ((pre.map V6Chunk.raw
        ++ V6Chunk.raw [] :: [V6Chunk.raw []]).take pre.length)).isSome
        = true := by
      rw [show pre.length = (pre.map V6Chunk.raw).length from by simp,
        List.take_left _ _]
      exact (mapMOpt_raw_iff pre).mpr hgpre
    refine ipv6_chunks_ok_of_gap _ pre.length pre.length 0 hie
      (by rw [hlen]; omega)
      (by rw [hhead]; simp only [Bool.false_eq_true, if_false])
      (by intro h; rw [h] at hhead; simp at hhead)
      (by rw [hlast]
          simp only [eq_self_iff_true, if_true]
          rw [hlen]
          omega)
      (fun _ => rfl) (by omega) htake ?_
    rw [Nat.sub_zero, List.drop_eq_nil_of_le (Nat.le_refl _)]
    rfl

theorem spec_comp_ok (s : List Char) (pre post : List (List Char))
    (hgpre : ∀ g ∈ pre, HexGroup g) (hgpost : ∀ g ∈ post, HexGroup g)
    (hcount : pre.length + post.length ≤ 7)
    (hs : s = joinCh ':' pre ++ ':' :: ':' :: joinCh ':' post) :
    ipv6_addr_ok s = true := by
  subst hs
  have hsplit := splitCh_compressed pre post
    (fun p hp => hexGroup_no_colon p (hgpre p hp))
    (fun p hp => hexGroup_no_colon p (hgpost p hp))
  have hP1 : 1 ≤ (if pre = [] then [[]] else pre).length := by
    by_cases h : pre = []
    · simp [h]
    · rw [if_neg h]
      exact List.length_pos.mpr h
  have hQ1 : 1 ≤ (if post = [] then [[]] else post).length := by
    by_cases h : post = []
    · simp [h]
    · rw [if_neg h]
      exact List.length_pos.mpr h
  have hdot : ∀ p ∈ (if pre = [] then [[]] else pre)
      ++ [] :: (if post = [] then [[]] else post), '.' ∉ p := by
    intro p hp
    rcases List.mem_append.mp hp with h | h
    · by_cases hpre : pre = []
      · rw [if_pos hpre] at h
        rw [List.mem_singleton.mp h]
        simp
      · rw [if_neg hpre] at h
        exact hexGroup_no_dot p (hgpre p h)
    · rcases List.mem_cons.mp h with h | h
      · rw [h]
        simp
      · by_cases hpost : post = []
        · rw [if_pos hpost] at h
          rw [List.mem_singleton.mp h]
          simp
        · rw [if_neg hpost] at h
          exact hexGroup_no_dot p (hgpost p h)
  unfold ipv6_addr_ok
  dsimp only []
  rw [hsplit, if_neg (by
    simp only [List.length_append, List.length_cons]
    omega)]
  rw [embedIPv4_of_forall_no_dot _ (by simp) hdot]
  dsimp only []
  rw [show ((if pre = [] then [[]] else pre)
        ++ [] :: (if post = [] then [[]] else post)).map V6Chunk.raw
      = (if pre = [] then [V6Chunk.raw []] else pre.map V6Chunk.raw)
        ++ V6Chunk.raw []
          :: (if post = [] then [[]] else post).map V6Chunk.raw from by
    by_cases h : pre = [] <;> simp [h]]
  by_cases hpost : post = []
  · rw [if_pos hpost]
    rw [show ([[]] : List (List Char)).map V6Chunk.raw
        = [V6Chunk.raw []] from rfl]
    exact chunks_ok_gap_trailing pre hgpre (by omega)
  · rw [if_neg hpost]
    refine chunks_ok_gap_live pre (post.map V6Chunk.raw) hgpre
      (by simp [hpost]) ?_ ((mapMOpt_raw_iff post).mpr hgpost)
      (by simp; omega)
    intro cn hc
    obtain ⟨p, hp, rfl⟩ := List.mem_map.mp hc
    simp only [chunkIsEmpty, List.isEmpty_eq_false]
    exact hexGroup_ne_nil p (hgpost p hp)

theorem spec_comp_embedded_ok (s : List Char) (pre gs : List (List Char))
    (v4 : List Char) (hgpre : ∀ g ∈ pre, HexGroup g)
    (hggs : ∀ g ∈ gs, HexGroup g) (hv4 : SpecIPv4 v4)
    (hcount : pre.length + (gs ++ [v4]).length ≤ 6)
    (hs : s = joinCh ':' pre ++ ':' :: ':' :: joinCh ':' (gs ++ [v4])) :
    ipv6_addr_ok s = true := by
  subst hs
  obtain ⟨hv4ne, hv4nc, hv4dot⟩ := specIPv4_props v4 hv4
  obtain ⟨a, b, c, d, hoct⟩ := spec_ipv4_octets v4 hv4
  have hsplit := splitCh_compressed pre (gs ++ [v4])
    (fun p hp => hexGroup_no_colon p (hgpre p hp))
    (fun p hp => by
      rcases List.mem_append.mp hp with h | h
      · exact hexGroup_no_colon p (hggs p h)
      · rw [List.mem_singleton.mp h]
        exact hv4nc)
  rw [if_neg (show ¬(gs ++ [v4] = []) by simp)] at hsplit
  have hP1 : 1 ≤ (if pre = [] then [[]] else pre).length := by
    by_cases h : pre = []
    · simp [h]
    · rw [if_neg h]
      exact List.length_pos.mpr h
  unfold ipv6_addr_ok
  dsimp only []
  rw [hsplit, if_neg (by
    simp only [List.length_append, List.length_cons]
    omega)]
  rw [show (if pre = [] then [[]] else pre) ++ [] :: (gs ++ [v4])
      = ((if pre = [] then [[]] else pre) ++ [] :: gs) ++ [v4] from by
    simp]
  rw [embedIPv4_concat_dot _ v4 hv4dot a b c d hoct]
  dsimp only []
  rw [show ((if pre = [] then [[]] else pre) ++ [] :: gs).map V6Chunk.raw
        ++ [V6Chunk.emb (a * 256 + b), V6Chunk.emb (c * 256 + d)]
      = (if pre = [] then [V6Chunk.raw []] else pre.map V6Chunk.raw)
        ++ V6Chunk.raw [] :: (gs.map V6Chunk.raw
          ++ [V6Chunk.emb (a * 256 + b), V6Chunk.emb (c * 256 + d)]) from by
    by_cases h : pre = [] <;> simp [h]]
  refine chunks_ok_gap_live pre
    (gs.map V6Chunk.raw
      ++ [V6Chunk.emb (a * 256 + b), V6Chunk.emb (c * 256 + d)]) hgpre
    (by simp) ?_ ?_ (by simp at hcount ⊢; omega)
  · intro cn hc
    rcases List.mem_append.mp hc with h | h
    · obtain ⟨p, hp, rfl⟩ := List.mem_map.mp h
      simp only [chunkIsEmpty, List.isEmpty_eq_false]
      exact hexGroup_ne_nil p (hggs p hp)
    · rcases List.mem_cons.mp h with h | h
      · rw [h]
        rfl
      · rw [List.mem_singleton.mp h]
        rfl
  · rw [mapMOpt_isSome_iff]
    intro cn hc
    rcases List.mem_append.mp hc with h | h
    · obtain ⟨p, hp, rfl⟩ := List.mem_map.mp h
      exact (parse_hextet_isSome_iff p).mpr (hggs p hp)
    · rcases List.mem_cons.mp h with h | h
      · rw [h]
        rfl
      · rw [List.mem_singleton.mp h]
        rfl

theorem specIPv6_ipv6_addr_ok (s : List Char) (h : SpecIPv6 s) :
    ipv6_addr_ok s = true := by
  rcases h with hfull | hcomp
  · rcases hfull with ⟨gs, hlen, hg, hs⟩ | ⟨gs, v4, hlen, hg, hv4, hs⟩
    · exact spec_full_groups_ok s gs hlen hg hs
    · exact spec_full_embedded_ok s gs v4 hlen hg hv4 hs
  · obtain ⟨pre, post, hgpre, hs, hrest⟩ := hcomp
    rcases hrest with ⟨hgpost, hcount⟩ | ⟨gs, v4, hpost, hggs, hv4, hcount⟩
    · exact spec_comp_ok s pre post hgpre hgpost hcount hs
    · subst hpost
      exact spec_comp_embedded_ok s pre gs v4 hgpre hggs hv4 hcount hs

theorem ipv6_chunks_ok_gap_inv (parts : List V6Chunk) (i : Nat)
    (hie : internalEmpties parts = [i]) (h : ipv6_chunks_ok parts = true) :
    parts.length ≤ 9
    ∧ (chunkIsEmpty (parts.getD 0 (V6Chunk.raw [])) = true → i = 1)
    ∧ (chunkIsEmpty (parts.getD (parts.length - 1) (V6Chunk.raw [])) = true
        → parts.length - i - 1 = 1)
    ∧ (if chunkIsEmpty (parts.getD 0 (V6Chunk.raw [])) then i - 1 else i)
      + (if chunkIsEmpty (parts.getD (parts.length - 1) (V6Chunk.raw []))
          then parts.length - i - 1 - 1 else parts.length - i - 1) < 8
    ∧ (mapMOpt chunkHextet? (parts.take
        (if chunkIsEmpty (parts.getD 0 (V6Chunk.raw []))
          then i - 1 else i))).isSome = true
    ∧ (mapMOpt chunkHextet? (parts.drop (parts.length -
        (if chunkIsEmpty (parts.getD (parts.length - 1) (V6Chunk.raw []))
          then parts.length - i - 1 - 1
          else parts.length - i - 1)))).isSome = true := by
  obtain ⟨⟨hi1, hi2, hi3⟩, -⟩ := (internalEmpties_eq_single_iff parts i).mp hie
  unfold ipv6_chunks_ok at h
  split at h
  · cases h
  rename_i h9
  rw [hie] at h
  dsimp only [] at h
  cases hhd : chunkIsEmpty (parts.getD 0 (V6Chunk.raw [])) with
  | true =>
    rw [hhd] at h
    simp only [eq_self_iff_true, if_true] at h
    have e1 : i - 1 = 0 := by
      by_contra hc
      rw [if_pos (show (true && !(i - 1 == 0)) = true by simp [hc])] at h
      cases h
    rw [if_neg (show ¬ (true && !(i - 1 == 0)) = true by simp [e1])] at h
    cases hlst : chunkIsEmpty
        (parts.getD (parts.length - 1) (V6Chunk.raw [])) with
    | true =>
      rw [hlst] at h
      simp only [eq_self_iff_true, if_true] at h
      have e2 : parts.length - i - 1 - 1 = 0 := by
        by_contra hc
        rw [if_pos (show (true && !(parts.length - i - 1 - 1 == 0)) = true
          by simp [hc])] at h
        cases h
      rw [if_neg (show ¬ (true && !(parts.length - i - 1 - 1 == 0)) = true
        by simp [e2])] at h
      by_cases e3 : 8 ≤ i - 1 + (parts.length - i - 1 - 1)
      · rw [if_pos e3] at h
        cases h
      rw [if_neg e3] at h
      rw [Bool.and_eq_true] at h
      simp only [eq_self_iff_true, if_true]
      exact ⟨by omega, fun _ => by omega, fun _ => by omega, by omega,
        h.1, h.2⟩
    | false =>
      rw [hlst] at h
      simp only [Bool.false_eq_true, if_false] at h
      rw [if_neg (show ¬ (false && !(parts.length - i - 1 == 0)) = true
        by simp)] at h
      by_cases e3 : 8 ≤ i - 1 + (parts.length - i - 1)
      · rw [if_pos e3] at h
        cases h
      rw [if_neg e3] at h
      rw [Bool.and_eq_true] at h
      simp only [eq_self_iff_true, if_true, Bool.false_eq_true, if_false]
      refine ⟨by omega, fun _ => by omega, ?_, by omega, h.1, h.2⟩
      intro hc
      cases hc
  | false =>
    rw [hhd] at h
    simp only [Bool.false_eq_true, if_false] at h
    rw [if_neg (show ¬ (false && !(i == 0)) = true by simp)] at h
    cases hlst : chunkIsEmpty
        (parts.getD (parts.length - 1) (V6Chunk.raw [])) with
    | true =>
      rw [hlst] at h
      simp only [eq_self_iff_true, if_true] at h
      have e2 : parts.length - i - 1 - 1 = 0 := by
        by_contra hc
        rw [if_pos (show (true && !(parts.length - i - 1 - 1 == 0)) = true
          by simp [hc])] at h
        cases h
      rw [if_neg (show ¬ (true && !(parts.length - i - 1 - 1 == 0)) = true
        by simp [e2])] at h
      by_cases e3 : 8 ≤ i + (parts.length - i - 1 - 1)
      · rw [if_pos e3] at h
        cases h
      rw [if_neg e3] at h
      rw [Bool.and_eq_true] at h
      simp only [eq_self_iff_true, if_true, Bool.false_eq_true, if_false]
      refine ⟨by omega, ?_, fun _ => by omega, by omega, h.1, h.2⟩
      intro hc
      cases hc
    | false =>
      rw [hlst] at h
      simp only [Bool.false_eq_true, if_false] at h
      rw [if_neg (show ¬ (false && !(parts.length - i - 1 == 0)) = true
        by simp)] at h
      by_cases e3 : 8 ≤ i + (parts.length - i - 1)
      · rw [if_pos e3] at h
        cases h
      rw [if_neg e3] at h
      rw [Bool.and_eq_true] at h
      simp only [Bool.false_eq_true, if_false]
      refine ⟨by omega, ?_, ?_, by omega, h.1, h.2⟩
      · intro hc
        cases hc
      · intro hc
        cases hc

theorem mapMOpt_length (f : α → Option β) : ∀ (l : List α) (m : List β),
    mapMOpt f l = some m → m.length = l.length := by
  intro l
  induction l with
  | nil =>
    intro m h
    simp only [mapMOpt, Option.some.injEq] at h
    subst h
    rfl
  | cons a l ih =>
    intro m h
    simp only [mapMOpt] at h
    cases hfa : f a with
    | none =>
      rw [hfa] at h
      cases hml : mapMOpt f l with
      | none =>
        rw [hml] at h
        dsimp only [] at h
        cases h
      | some bs =>
        rw [hml] at h
        dsimp only [] at h
        cases h
    | some b =>
      rw [hfa] at h
      cases hml : mapMOpt f l with
      | none =>
        rw [hml] at h
        dsimp only [] at h
        cases h
      | some bs =>
        rw [hml] at h
        dsimp only [] at h
        cases h
        simp only [List.length_cons, ih bs hml]

theorem ipv4_octets_some_shape (s : List Char) (v : List Nat)
    (h : ipv4_octets? s = some v) : ∃ a b c d, v = [a, b, c, d] := by
  unfold ipv4_octets? at h
  dsimp only [] at h
  split at h
  · cases h
  rename_i hlen
  have h4 : v.length = 4 := by
    rw [mapMOpt_length _ _ _ h]
    exact not_not.mp hlen
  rcases v with _ | ⟨a, v⟩
  · simp only [List.length_nil] at h4
    omega
  rcases v with _ | ⟨b, v⟩
  · simp only [List.length_cons, List.length_nil] at h4
    omega
  rcases v with _ | ⟨c, v⟩
  · simp only [List.length_cons, List.length_nil] at h4
    omega
  rcases v with _ | ⟨d, v⟩
  · simp only [List.length_cons, List.length_nil] at h4
    omega
  rcases v with _ | ⟨e, v⟩
  · exact ⟨a, b, c, d, rfl⟩
  · simp only [List.length_cons] at h4
    omega

theorem embedIPv4_concat_dot_none (init : List (List Char))
    (last : List Char) (hdot : '.' ∈ last)
    (hoct : ipv4_octets? last = none) :
    embedIPv4 (init ++ [last]) = none := by
  unfold embedIPv4
  rw [List.getLast?_concat]
  dsimp only []
  rw [show last.contains '.' = true from by simp [List.elem_eq_mem, hdot]]
  rw [if_pos rfl, hoct]

theorem ipv6_chunks_ok_nil_inv (parts : List V6Chunk)
    (hie : internalEmpties parts = [])
    (h : ipv6_chunks_ok parts = true) :
    parts.length = 8 ∧ (mapMOpt chunkHextet? parts).isSome = true := by
  unfold ipv6_chunks_ok at h
  split at h
  · cases h
  rw [hie] at h
  dsimp only [] at h
  simp only [Bool.and_eq_true, beq_iff_eq] at h
  exact ⟨h.1.1.1, h.2⟩

theorem ipv6_chunks_ok_two_inv (parts : List V6Chunk) (j k : Nat)
    (rest : List Nat) (hie : internalEmpties parts = j :: k :: rest)
    (h : ipv6_chunks_ok parts = true) : False := by
  unfold ipv6_chunks_ok at h
  split at h
  · cases h
  rw [hie] at h
  dsimp only [] at h
  cases h

theorem decomp_at_gap (P : List (List Char)) (i : Nat)
    (hiL : i < P.length) (hPi : P.getD i [] = []) :
    P = P.take i ++ [] :: P.drop (i + 1) := by
  conv_lhs => rw [← List.take_append_drop i P]
  rw [List.drop_eq_getElem_cons hiL, ← List.getD_eq_getElem P [] hiL, hPi]

theorem cons_getD_drop (P : List (List Char)) (n : Nat)
    (hn : n < P.length) :
    P.drop n = P.getD n [] :: P.drop (n + 1) := by
  rw [List.drop_eq_getElem_cons hn, List.getD_eq_getElem P [] hn]

theorem gap_raw_spec (P : List (List Char)) (i : Nat)
    (h3 : 3 ≤ P.length)
    (hie : internalEmpties (P.map V6Chunk.raw) = [i])
    (h : ipv6_chunks_ok (P.map V6Chunk.raw) = true) :
    SpecIPv6Comp (joinCh ':' P) := by
  obtain ⟨⟨hi1, hi2, hi3⟩, -⟩ :=
    (internalEmpties_eq_single_iff (P.map V6Chunk.raw) i).mp hie
  rw [List.length_map] at hi2
  have hiP : i < P.length := by omega
  have hgap : P.getD i [] = [] := by
    rw [getD_map_raw P i hiP] at hi3
    exact List.isEmpty_iff.mp hi3
  obtain ⟨h9, hhead1, hlast1, hsum, htake, hdrop⟩ :=
    ipv6_chunks_ok_gap_inv (P.map V6Chunk.raw) i hie h
  rw [List.length_map] at h9 hsum hdrop hlast1
  cases hhd0 : chunkIsEmpty ((P.map V6Chunk.raw).getD 0 (V6Chunk.raw []))
      with
  | false =>
    rw [hhd0] at hsum htake
    simp only [Bool.false_eq_true, if_false] at hsum htake
    cases hlt0 : chunkIsEmpty
        ((P.map V6Chunk.raw).getD (P.length - 1) (V6Chunk.raw [])) with
    | false =>
      rw [hlt0] at hsum hdrop
      simp only [Bool.false_eq_true, if_false] at hsum hdrop
      have hidx : P.length - (P.length - i - 1) = i + 1 := by omega
      rw [← List.map_take] at htake
      rw [hidx, ← List.map_drop] at hdrop
      refine ⟨P.take i, P.drop (i + 1), (mapMOpt_raw_iff _).mp htake, ?_,
        Or.inl ⟨(mapMOpt_raw_iff _).mp hdrop, ?_⟩⟩
      · conv_lhs => rw [decomp_at_gap P i hiP hgap]
        rw [joinCh_append_of_ne_nil ':' (P.take i) ([] :: P.drop (i + 1))
          (by
            intro hc
            have hlt := List.length_take i P
            rw [hc] at hlt
            simp at hlt
            omega)
          (by simp)]
        rw [joinCh_cons_ne ':' [] (P.drop (i + 1))
          (by
            intro hc
            have hld := List.length_drop (i + 1) P
            rw [hc] at hld
            simp at hld
            omega)]
        simp
      · simp only [List.length_take, List.length_drop]
        omega
    | true =>
      have hL1 : P.length - i - 1 = 1 := hlast1 hlt0
      rw [hlt0] at hsum hdrop
      simp only [eq_self_iff_true, if_true] at hsum hdrop
      rw [← List.map_take] at htake
      have hlast_nil : P.getD (P.length - 1) [] = [] := by
        rw [getD_map_raw P _ (by omega)] at hlt0
        exact List.isEmpty_iff.mp hlt0
      have hlt : i + 1 < P.length := hi2
      have hdrop_eq : P.drop (i + 1) = [[]] := by
        rw [List.drop_eq_getElem_cons hlt, List.drop_eq_nil_of_le (by omega),
          ← List.getD_eq_getElem P [] hlt,
          show i + 1 = P.length - 1 from by omega, hlast_nil]
      refine ⟨P.take i, [], (mapMOpt_raw_iff _).mp htake, ?_,
        Or.inl ⟨by simp, ?_⟩⟩
      · conv_lhs => rw [decomp_at_gap P i hiP hgap, hdrop_eq]
        rw [joinCh_append_of_ne_nil ':' (P.take i) ([] :: [[]])
          (by
            intro hc
            have hlt2 := List.length_take i P
            rw [hc] at hlt2
            simp at hlt2
            omega)
          (by simp)]
        rfl
      · simp only [List.length_take, List.length_nil]
        omega
  | true =>
    have hieq : i = 1 := hhead1 hhd0
    subst hieq
    rw [hhd0] at hsum htake
    simp only [eq_self_iff_true, if_true] at hsum htake
    have hhead_nil : P.getD 0 [] = [] := by
      rw [getD_map_raw P 0 (by omega)] at hhd0
      exact List.isEmpty_iff.mp hhd0
    cases hlt0 : chunkIsEmpty
        ((P.map V6Chunk.raw).getD (P.length - 1) (V6Chunk.raw [])) with
    | false =>
      rw [hlt0] at hsum hdrop
      simp only [Bool.false_eq_true, if_false] at hsum hdrop
      have hidx : P.length - (P.length - 1 - 1) = 2 := by omega
      rw [hidx, ← List.map_drop] at hdrop
      refine ⟨[], P.drop 2, by simp, ?_,
        Or.inl ⟨(mapMOpt_raw_iff _).mp hdrop, ?_⟩⟩
      · have hP01 : P = [] :: [] :: P.drop 2 := by
          have e0 := cons_getD_drop P 0 (by omega)
          have e1 := cons_getD_drop P 1 (by omega)
          rw [List.drop_zero] at e0
          rw [e1, hgap, hhead_nil] at e0
          exact e0
        conv_lhs => rw [hP01]
        rw [joinCh_cons_ne ':' [] ([] :: P.drop 2) (by simp)]
        rw [joinCh_cons_ne ':' [] (P.drop 2)
          (by
            intro hc
            have hld := List.length_drop 2 P
            rw [hc] at hld
            simp at hld
            omega)]
        simp [joinCh]
      · simp only [List.length_nil, List.length_drop]
        omega
    | true =>
      have hL1 : P.length - 1 - 1 = 1 := hlast1 hlt0
      have hL3 : P.length = 3 := by omega
      have hlast_nil : P.getD 2 [] = [] := by
        rw [show P.length - 1 = 2 from by omega] at hlt0
        rw [getD_map_raw P 2 (by omega)] at hlt0
        exact List.isEmpty_iff.mp hlt0
      have e2 : P.drop 2 = [[]] := by
        rw [cons_getD_drop P 2 (by omega), hlast_nil,
          List.drop_eq_nil_of_le (by omega)]
      have hP : P = [[], [], []] := by
        have t0 := cons_getD_drop P 0 (by omega)
        have t1 := cons_getD_drop P 1 (by omega)
        rw [List.drop_zero] at t0
        rw [hhead_nil] at t0
        rw [hgap] at t1
        rw [t1, e2] at t0
        exact t0
      refine ⟨[], [], by simp, ?_, Or.inl ⟨by simp, by simp⟩⟩
      rw [hP]
      rfl

theorem gap_emb_spec (init : List (List Char)) (last : List Char)
    (a b c d i : Nat)
    (hv4 : ipv4_octets? last = some [a, b, c, d])
    (hie : internalEmpties (init.map V6Chunk.raw
      ++ [V6Chunk.emb (a * 256 + b), V6Chunk.emb (c * 256 + d)]) = [i])
    (h : ipv6_chunks_ok (init.map V6Chunk.raw
      ++ [V6Chunk.emb (a * 256 + b), V6Chunk.emb (c * 256 + d)]) = true) :
    SpecIPv6Comp (joinCh ':' (init ++ [last])) := by
  obtain ⟨⟨hi1, hi2, hi3⟩, -⟩ := (internalEmpties_eq_single_iff _ i).mp hie
  have hlen : (init.map V6Chunk.raw
      ++ [V6Chunk.emb (a * 256 + b), V6Chunk.emb (c * 256 + d)]).length
      = init.length + 2 := by simp
  rw [hlen] at hi2
  have hiInit : i < init.length := by
    by_contra hc
    push_neg at hc
    have hi_eq : i = init.length := by omega
    rw [hi_eq] at hi3
    rw [List.getD_append_right _ _ _ _ (by simp)] at hi3
    simp [chunkIsEmpty] at hi3
  have hgap : init.getD i [] = [] := by
    rw [List.getD_append _ _ _ _ (by simpa using hiInit)] at hi3
    rw [getD_map_raw init i hiInit] at hi3
    exact List.isEmpty_iff.mp hi3
  obtain ⟨h9, hhead1, hlast1, hsum, htake, hdrop⟩ :=
    ipv6_chunks_ok_gap_inv _ i hie h
  have hlstF : chunkIsEmpty ((init.map V6Chunk.raw
      ++ [V6Chunk.emb (a * 256 + b), V6Chunk.emb (c * 256 + d)]).getD
        ((init.map V6Chunk.raw
          ++ [V6Chunk.emb (a * 256 + b), V6Chunk.emb (c * 256 + d)]).length
          - 1) (V6Chunk.raw [])) = false := by
    rw [hlen]
    rw [List.getD_append_right _ _ _ _ (by simp)]
    simp [chunkIsEmpty]
  rw [hlstF] at hsum hdrop
  simp only [Bool.false_eq_true, if_false] at hsum hdrop
  rw [hlen] at h9 hsum hdrop
  have hidx : init.length + 2 - (init.length + 2 - i - 1) = i + 1 := by
    omega
  rw [hidx] at hdrop
  have hdrop_split : (init.map V6Chunk.raw
      ++ [V6Chunk.emb (a * 256 + b), V6Chunk.emb (c * 256 + d)]).drop (i + 1)
      = (init.drop (i + 1)).map V6Chunk.raw
        ++ [V6Chunk.emb (a * 256 + b), V6Chunk.emb (c * 256 + d)] := by
    rw [List.drop_append_of_le_length (by simpa using hiInit)]
    rw [← List.map_drop]
  rw [hdrop_split] at hdrop
  have hpost_groups : ∀ g ∈ init.drop (i + 1), HexGroup g := by
    rw [mapMOpt_isSome_iff] at hdrop
    intro g hg
    exact (parse_hextet_isSome_iff g).mp (hdrop (V6Chunk.raw g)
      (List.mem_append.mpr (Or.inl (List.mem_map_of_mem _ hg))))
  have hv4spec : SpecIPv4 last := ipv4_octets_spec last [a, b, c, d] hv4
  cases hhd0 : chunkIsEmpty ((init.map V6Chunk.raw
      ++ [V6Chunk.emb (a * 256 + b), V6Chunk.emb (c * 256 + d)]).getD 0
        (V6Chunk.raw [])) with
  | false =>
    rw [hhd0] at hsum htake
    simp only [Bool.false_eq_true, if_false] at hsum htake
    have htake_split : (init.map V6Chunk.raw
        ++ [V6Chunk.emb (a * 256 + b), V6Chunk.emb (c * 256 + d)]).take i
        = (init.take i).map V6Chunk.raw := by
      rw [List.take_append_of_le_length (by simpa using hiInit.le)]
      rw [← List.map_take]
    rw [htake_split] at htake
    refine ⟨init.take i, init.drop (i + 1) ++ [last],
      (mapMOpt_raw_iff _).mp htake, ?_,
      Or.inr ⟨init.drop (i + 1), last, rfl, hpost_groups, hv4spec, ?_⟩⟩
    · have hinit_dec : init = init.take i ++ [] :: init.drop (i + 1) :=
        decomp_at_gap init i hiInit hgap
      conv_lhs => rw [hinit_dec]
      rw [List.append_assoc, List.cons_append]
      rw [joinCh_append_of_ne_nil ':' (init.take i)
        ([] :: (init.drop (i + 1) ++ [last]))
        (by
          intro hc
          have hlt := List.length_take i init
          rw [hc] at hlt
          simp at hlt
          omega)
        (by simp)]
      rw [joinCh_cons_ne ':' [] (init.drop (i + 1) ++ [last]) (by simp)]
      simp
    · simp only [List.length_take, List.length_append, List.length_drop,
        List.length_cons, List.length_nil]
      omega
  | true =>
    have hieq : i = 1 := hhead1 hhd0
    subst hieq
    rw [hhd0] at hsum htake
    simp only [eq_self_iff_true, if_true] at hsum htake
    have hhead_nil : init.getD 0 [] = [] := by
      rw [List.getD_append _ _ _ _
        (by simp only [List.length_map]; omega)] at hhd0
      rw [getD_map_raw init 0 (by omega)] at hhd0
      exact List.isEmpty_iff.mp hhd0
    refine ⟨[], init.drop 2 ++ [last], by simp, ?_,
      Or.inr ⟨init.drop 2, last, rfl, hpost_groups, hv4spec, ?_⟩⟩
    · have hinit01 : init = [] :: [] :: init.drop 2 := by
        have t0 := cons_getD_drop init 0 (by omega)
        have t1 := cons_getD_drop init 1 (by omega)
        rw [List.drop_zero] at t0
        rw [hhead_nil] at t0
        rw [hgap] at t1
        rw [t1] at t0
        exact t0
      conv_lhs => rw [hinit01]
      rw [List.cons_append, List.cons_append]
      rw [joinCh_cons_ne ':' [] ([] :: (init.drop 2 ++ [last])) (by simp)]
      rw [joinCh_cons_ne ':' [] (init.drop 2 ++ [last]) (by simp)]
      simp [joinCh]
    · simp only [List.length_nil, List.length_append, List.length_drop,
        List.length_cons]
      omega

theorem full_raw_spec (P : List (List Char))
    (hie : internalEmpties (P.map V6Chunk.raw) = [])
    (h : ipv6_chunks_ok (P.map V6Chunk.raw) = true) :
    SpecIPv6Full (joinCh ':' P) := by
  obtain ⟨hlen, hparse⟩ := ipv6_chunks_ok_nil_inv _ hie h
  rw [List.length_map] at hlen
  exact Or.inl ⟨P, hlen, (mapMOpt_raw_iff P).mp hparse, rfl⟩

theorem full_emb_spec (init : List (List Char)) (last : List Char)
    (a b c d : Nat) (hv4 : ipv4_octets? last = some [a, b, c, d])
    (hie : internalEmpties (init.map V6Chunk.raw
      ++ [V6Chunk.emb (a * 256 + b), V6Chunk.emb (c * 256 + d)]) = [])
    (h : ipv6_chunks_ok (init.map V6Chunk.raw
      ++ [V6Chunk.emb (a * 256 + b), V6Chunk.emb (c * 256 + d)]) = true) :
    SpecIPv6Full (joinCh ':' (init ++ [last])) := by
  obtain ⟨hlen, hparse⟩ := ipv6_chunks_ok_nil_inv _ hie h
  have hlen6 : init.length = 6 := by
    simp only [List.length_append, List.length_map, List.length_cons,
      List.length_nil] at hlen
    omega
  have hgroups : ∀ g ∈ init, HexGroup g := by
    rw [mapMOpt_isSome_iff] at hparse
    intro g hg
    exact (parse_hextet_isSome_iff g).mp (hparse (V6Chunk.raw g)
      (List.mem_append.mpr (Or.inl (List.mem_map_of_mem _ hg))))
  exact Or.inr ⟨init, last, hlen6, hgroups,
    ipv4_octets_spec last _ hv4, rfl⟩

theorem ipv6_addr_ok_spec (s : List Char) (h : ipv6_addr_ok s = true) :
    SpecIPv6 s := by
  unfold ipv6_addr_ok at h
  dsimp only [] at h
  split at h
  · cases h
  rename_i hmin
  obtain ⟨init, last, hPcat⟩ : ∃ init last,
      splitCh ':' s = init ++ [last] := by
    rcases List.eq_nil_or_concat (splitCh ':' s) with hnil | ⟨I, L, hc⟩
    · exact absurd hnil (splitCh_ne_nil ':' s)
    · exact ⟨I, L, by rw [hc, List.concat_eq_append]⟩
  have hjoin : joinCh ':' (init ++ [last]) = s := by
    rw [← hPcat]
    exact joinCh_splitCh ':' s
  rw [hPcat] at h hmin
  by_cases hdot : '.' ∈ last
  · cases hoct : ipv4_octets? last with
    | none =>
      rw [embedIPv4_concat_dot_none init last hdot hoct] at h
      dsimp only [] at h
      cases h
    | some v =>
      obtain ⟨a, b, c, d, hv⟩ := ipv4_octets_some_shape last v hoct
      subst hv
      rw [embedIPv4_concat_dot init last hdot a b c d hoct] at h
      dsimp only [] at h
      rw [← hjoin]
      cases hIE : internalEmpties (init.map V6Chunk.raw
          ++ [V6Chunk.emb (a * 256 + b), V6Chunk.emb (c * 256 + d)]) with
      | nil => exact Or.inl (full_emb_spec init last a b c d hoct hIE h)
      | cons j tl =>
        cases tl with
        | nil => exact Or.inr (gap_emb_spec init last a b c d j hoct hIE h)
        | cons k rest =>
          exact (ipv6_chunks_ok_two_inv _ j k rest hIE h).elim
  · rw [embedIPv4_concat_no_dot init last hdot] at h
    dsimp only [] at h
    rw [← hjoin]
    cases hIE : internalEmpties ((init ++ [last]).map V6Chunk.raw) with
    | nil => exact Or.inl (full_raw_spec (init ++ [last]) hIE h)
    | cons j tl =>
      cases tl with
      | nil =>
        refine Or.inr (gap_raw_spec (init ++ [last]) j ?_ hIE h)
        omega
      | cons k rest =>
        exact (ipv6_chunks_ok_two_inv _ j k rest hIE h).elim

theorem ipv6_addr_ok_iff (s : List Char) :
    ipv6_addr_ok s = true ↔ SpecIPv6 s :=
  ⟨ipv6_addr_ok_spec s, specIPv6_ipv6_addr_ok s⟩

